/-
Verification of the Minesweeper game engine and solver core.

The board engine (`board.py`) is embedded shallowly:
* the 2-D grid of `Cell` objects is flattened row-major
  (`grid[r][c]` becomes `grid[r * cols + c]`);
* `Cell.row`/`Cell.col` (immutable identity fields, redundant with the
  cell's position in the grid) are dropped;
* Python `raise` (IndexError / ValueError) is modeled with `Except Unit`;
* `random.Random.sample(all_positions, num_mines)` is modeled by passing
  the chosen sample as an explicit list parameter; theorems quantify over
  every sample that `rng.sample` could return (no duplicates, members of
  the population, requested length);
* the set-typed accumulators (`set(...)`, `sorted(set)`) are modeled by
  `List.dedup` plus an insertion sort on coordinates.
-/
import Mathlib

namespace Minesweeper

/-- `CellState` mirrors `CellState` in `board.py` (UNOPENED / OPEN / FLAGGED). -/
inductive CellState where
  | unopened : CellState
  | opened : CellState
  | flagged : CellState
deriving DecidableEq, Repr, Inhabited

/-- `Cell` mirrors the `Cell` dataclass of `board.py` without the redundant
`row`/`col` identity fields. -/
structure Cell where
  is_mine : Bool
  adjacent_mines : Nat
  state : CellState
deriving DecidableEq, Repr, Inhabited

/-- A fresh cell, as produced by `Cell(r, c)` in the Python constructor. -/
def Cell.fresh : Cell := { is_mine := false, adjacent_mines := 0, state := CellState.unopened }

/-- `Board` mirrors the `Board` class state: dimensions, mine budget, the three
game flags, and the grid (flattened row-major). -/
structure Board where
  rows : Nat
  cols : Nat
  num_mines : Nat
  mines_placed : Bool
  game_over : Bool
  win : Bool
  grid : List Cell
deriving DecidableEq, Repr, Inhabited

/-- Well-formedness: the flattened grid has exactly `rows * cols` cells (the
Python constructor guarantees this). -/
def Board.WF (b : Board) : Prop := b.grid.length = b.rows * b.cols

/-- `Board.in_bounds`, on Python ints (negative coordinates are out of bounds). -/
def in_bounds (b : Board) (row col : Int) : Bool :=
  decide (0 ≤ row) && decide (row < (b.rows : Int)) && decide (0 ≤ col) && decide (col < (b.cols : Int))

/-- Reading `self.grid[row][col]` on the flattened grid (total, with a default
that is never hit on in-bounds coordinates of a well-formed board). -/
def get_cell (b : Board) (r c : Nat) : Cell := b.grid.getD (r * b.cols + c) Cell.fresh

/-- Writing one cell of `self.grid` (a no-op if the index is out of range,
which never happens on in-bounds coordinates of a well-formed board). -/
def set_cell (b : Board) (r c : Nat) (cell : Cell) : Board :=
  { b with grid := b.grid.set (r * b.cols + c) cell }

/-- The eight neighbor offsets in the iteration order of `Board.neighbors`
(`dr` in `(-1,0,1)`, `dc` in `(-1,0,1)`, skipping `(0,0)`). -/
def neighbor_offsets : List (Int × Int) :=
  [(-1, -1), (-1, 0), (-1, 1), (0, -1), (0, 1), (1, -1), (1, 0), (1, 1)]

/-- Coordinates yielded by `Board.neighbors(row, col)`: the in-bounds ones among
the up-to-8 adjacent coordinates, in iteration order. -/
def neighbor_coords (b : Board) (r c : Nat) : List (Nat × Nat) :=
  neighbor_offsets.filterMap (fun d =>
    let nr : Int := (r : Int) + d.1
    let nc : Int := (c : Int) + d.2
    if 0 ≤ nr ∧ nr < (b.rows : Int) ∧ 0 ≤ nc ∧ nc < (b.cols : Int) then
      some (nr.toNat, nc.toNat)
    else none)

/-- `sum(1 for n in self.neighbors(row, col) if n.is_mine)`. -/
def count_mine_neighbors (b : Board) (r c : Nat) : Nat :=
  (neighbor_coords b r c).countP (fun p => (get_cell b p.1 p.2).is_mine)

/-- Number of mines currently on the grid. -/
def count_mines (b : Board) : Nat := b.grid.countP (fun cell => cell.is_mine)

/-- The `Board.__init__` constructor: validates the configuration and builds
the fresh grid. `.error` models the raised `ValueError`. -/
def board_new (rows cols num_mines : Nat) : Except Unit Board :=
  if rows ≤ 0 ∨ cols ≤ 0 then Except.error ()
  else if num_mines ≤ 0 ∨ num_mines ≥ rows * cols then Except.error ()
  else Except.ok
    { rows := rows, cols := cols, num_mines := num_mines,
      mines_placed := false, game_over := false, win := false,
      grid := List.replicate (rows * cols) Cell.fresh }

/-- `all_positions` in `Board._place_mines`: every coordinate except the first
click, in row-major order. -/
def all_positions (b : Board) (first : Nat × Nat) : List (Nat × Nat) :=
  (List.range b.rows).flatMap (fun r =>
    (List.range b.cols).filterMap (fun c =>
      if (r, c) = first then none else some (r, c)))

/-- The loop `for r, c in mine_positions: self.grid[r][c].is_mine = True`.
Python iterates a set in unspecified order; since the updates are pointwise
and independent, this is rendered as a pointwise pass over the grid. -/
def mark_mines (b : Board) (mines : List (Nat × Nat)) : Board :=
  { b with grid := (List.range b.grid.length).map (fun i =>
      let cell := b.grid.getD i Cell.fresh
      if (i / b.cols, i % b.cols) ∈ mines then { cell with is_mine := true } else cell) }

/-- `Board._compute_adjacent_mine_counts`: each mine cell gets 0, each other
cell gets its exact mine-neighbor count. The Python loop writes only
`adjacent_mines` and reads only `is_mine`, so the in-place update is
equivalent to this pointwise pass over the original grid. -/
def compute_adjacent_mine_counts (b : Board) : Board :=
  { b with grid := (List.range b.grid.length).map (fun i =>
      let cell := b.grid.getD i Cell.fresh
      if cell.is_mine then { cell with adjacent_mines := 0 }
      else { cell with adjacent_mines := count_mine_neighbors b (i / b.cols) (i % b.cols) }) }

/-- `Board._place_mines(first_click)`, with the sample chosen by
`rng.sample` passed in as `sample`. `.error` models the raised `ValueError`. -/
def place_mines (b : Board) (first : Nat × Nat) (sample : List (Nat × Nat)) :
    Except Unit Board :=
  if b.num_mines > (all_positions b first).length then Except.error ()
  else
    let b1 := mark_mines b sample
    let b2 := compute_adjacent_mine_counts b1
    Except.ok { b2 with mines_placed := true }

/-- Number of not-yet-opened cells; the termination measure of the flood fill. -/
def hidden_count (b : Board) : Nat :=
  b.grid.countP (fun cell => !(decide (cell.state = CellState.opened)))

/-- Count of flagged cells (`Board.count_flags`). -/
def count_flags (b : Board) : Nat :=
  b.grid.countP (fun cell => decide (cell.state = CellState.flagged))

/-- `Board._all_safe_cells_opened`: true iff every non-mine cell is open. -/
def all_safe_cells_opened (b : Board) : Bool :=
  b.grid.all (fun cell => cell.is_mine || decide (cell.state = CellState.opened))

/-- `cell.state = CellState.OPEN`: the written-back cell. -/
def opened_copy (x : Cell) : Cell := { x with state := CellState.opened }

/-- The neighbor coordinates pushed when a zero-adjacency cell is opened:
neighbors of `(r, c)` on the updated board `b1` that are not open, not
flagged, and not mines, reversed because Python pushes onto the end of its
stack list and pops from the end. -/
def flood_push (b1 : Board) (r c : Nat) : List (Nat × Nat) :=
  ((neighbor_coords b1 r c).filter (fun p =>
    !(decide ((get_cell b1 p.1 p.2).state = CellState.opened)) &&
    !(decide ((get_cell b1 p.1 p.2).state = CellState.flagged)) &&
    !(get_cell b1 p.1 p.2).is_mine)).reverse

/-- The `while stack:` loop of `Board._flood_fill_open`. The stack top is the
list head. Every coordinate ever on the stack is in bounds in actual use
(the start is bounds-checked by `open_cell` and pushed neighbors are
produced in bounds); the index guard makes the recursion total on all
inputs. -/
def flood_loop (b : Board) (stack : List (Nat × Nat)) : Board :=
  match stack with
  | [] => b
  | (r, c) :: rest =>
    if h : r * b.cols + c < b.grid.length then
      if hskip : (get_cell b r c).state = CellState.opened ∨
          (get_cell b r c).state = CellState.flagged ∨
          (get_cell b r c).is_mine = true then
        flood_loop b rest
      else
        flood_loop (set_cell b r c (opened_copy (get_cell b r c)))
          ((if (get_cell b r c).adjacent_mines = 0 then
              flood_push (set_cell b r c (opened_copy (get_cell b r c))) r c
            else []) ++ rest)
    else
      flood_loop b rest
termination_by (hidden_count b, stack.length)
decreasing_by
  · apply Prod.Lex.right
    simp
  · apply Prod.Lex.left
    -- opening a hidden cell strictly decreases the hidden count
    have hstate : ¬((get_cell b r c).state = CellState.opened) :=
      fun hc => hskip (Or.inl hc)
    have hget : get_cell b r c = b.grid[r * b.cols + c] :=
      List.getD_eq_getElem _ _ h
    have hstate' : ¬(b.grid[r * b.cols + c]).state = CellState.opened := by
      rw [← hget]
      exact hstate
    have hpos : 0 < b.grid.countP (fun x => !(decide (x.state = CellState.opened))) := by
      refine List.countP_pos_iff.mpr ⟨b.grid[r * b.cols + c], List.getElem_mem h, ?_⟩
      simp [hstate']
    have hs := List.countP_set (fun x => !(decide (x.state = CellState.opened))) b.grid
      (r * b.cols + c) (opened_copy (get_cell b r c)) h
    simp [hstate', opened_copy] at hs
    simp only [hidden_count, set_cell, opened_copy]
    rw [hs]
    omega
  · apply Prod.Lex.right
    simp

/-- `Board._flood_fill_open(start_row, start_col)`. -/
def flood_fill_open (b : Board) (r c : Nat) : Board := flood_loop b [(r, c)]

/-- `Board.open_cell(row, col)`. `.error` models the raised `IndexError` /
`ValueError`; `sample` stands for the value `rng.sample` would return if mine
placement is triggered by this call. -/
def open_cell (sample : List (Nat × Nat)) (b : Board) (row col : Int) :
    Except Unit Board :=
  if in_bounds b row col = false then Except.error ()
  else if b.game_over then Except.ok b
  else
    let r := row.toNat
    let c := col.toNat
    let placed : Except Unit Board :=
      if b.mines_placed then Except.ok b else place_mines b (r, c) sample
    match placed with
    | Except.error e => Except.error e
    | Except.ok b1 =>
      let cell := get_cell b1 r c
      if cell.state = CellState.flagged ∨ cell.state = CellState.opened then Except.ok b1
      else if cell.is_mine then
        let b2 := set_cell b1 r c { cell with state := CellState.opened }
        Except.ok { b2 with game_over := true, win := false }
      else
        let b2 := flood_fill_open b1 r c
        if all_safe_cells_opened b2 then Except.ok { b2 with game_over := true, win := true }
        else Except.ok b2

/-- `Board.flag_cell(row, col)`: toggle a flag on an unopened cell. -/
def flag_cell (b : Board) (row col : Int) : Except Unit Board :=
  if in_bounds b row col = false then Except.error ()
  else if b.game_over then Except.ok b
  else
    let r := row.toNat
    let c := col.toNat
    let cell := get_cell b r c
    match cell.state with
    | CellState.opened => Except.ok b
    | CellState.unopened => Except.ok (set_cell b r c { cell with state := CellState.flagged })
    | CellState.flagged => Except.ok (set_cell b r c { cell with state := CellState.unopened })

/-! ## Solver layer (`solver/utils.py`, `solver/csp_solver.py`,
`solver/probabilistic_solver.py`) -/

/-- The two move kinds of `ActionType = Literal["open", "flag"]`. -/
inductive ActionKind where
  | openA : ActionKind
  | flagA : ActionKind
deriving DecidableEq, Repr, Inhabited

/-- The `Move` dataclass. -/
structure Move where
  action : ActionKind
  row : Nat
  col : Nat
deriving DecidableEq, Repr, Inhabited

/-- The `Constraint` dataclass. -/
structure Constraint where
  row : Nat
  col : Nat
  clue : Nat
  unknown : List (Nat × Nat)
  flagged : Nat
deriving DecidableEq, Repr, Inhabited

/-- `get_unknown_neighbors` (= `get_unopened_neighbors`): coordinates of
UNOPENED neighbors, in neighbor iteration order. -/
def unknown_neighbor_coords (b : Board) (r c : Nat) : List (Nat × Nat) :=
  (neighbor_coords b r c).filter (fun p =>
    decide ((get_cell b p.1 p.2).state = CellState.unopened))

/-- `len(get_flagged_neighbors(board, r, c))`. -/
def flagged_neighbor_count (b : Board) (r c : Nat) : Nat :=
  (neighbor_coords b r c).countP (fun p =>
    decide ((get_cell b p.1 p.2).state = CellState.flagged))

/-- `build_constraints`: one constraint per frontier cell (open, non-mine,
numbered, with at least one unknown neighbor), in row-major grid order. -/
def build_constraints (b : Board) : List Constraint :=
  (List.range b.grid.length).filterMap (fun i =>
    let r := i / b.cols
    let c := i % b.cols
    let cell := b.grid.getD i Cell.fresh
    if cell.state = CellState.opened ∧ cell.is_mine = false ∧ cell.adjacent_mines ≠ 0 then
      let unknowns := unknown_neighbor_coords b r c
      if unknowns = [] then none
      else some { row := r, col := c, clue := cell.adjacent_mines,
                  unknown := unknowns, flagged := flagged_neighbor_count b r c }
    else none)

/-- `remaining = c.clue - c.flagged` (Python int subtraction, may go negative). -/
def Constraint.remaining (c : Constraint) : Int := (c.clue : Int) - (c.flagged : Int)

/-- Lexicographic order on coordinates, as Python's tuple `sorted`. -/
def coord_le (p q : Nat × Nat) : Bool :=
  decide (p.1 < q.1) || (decide (p.1 = q.1) && decide (p.2 ≤ q.2))

/-- Insertion into a sorted coordinate list. -/
def insert_coord (p : Nat × Nat) : List (Nat × Nat) → List (Nat × Nat)
  | [] => [p]
  | q :: t => if coord_le p q then p :: q :: t else q :: insert_coord p t

/-- Insertion sort on coordinates; `sort_coords l.dedup` models
Python's `sorted(set_of_coords)`. -/
def sort_coords (l : List (Nat × Nat)) : List (Nat × Nat) := l.foldr insert_coord []

/-- Coordinates a single constraint contributes to `to_open` in
`basic_logical_moves`. -/
def basic_contrib_open (c : Constraint) : List (Nat × Nat) :=
  if c.remaining < 0 ∨ c.remaining > (c.unknown.length : Int) then []
  else if c.remaining = 0 then c.unknown
  else []

/-- Coordinates a single constraint contributes to `to_flag` in
`basic_logical_moves`. -/
def basic_contrib_flag (c : Constraint) : List (Nat × Nat) :=
  if c.remaining < 0 ∨ c.remaining > (c.unknown.length : Int) then []
  else if c.remaining = 0 then []
  else if c.remaining = (c.unknown.length : Int) then c.unknown
  else []

/-- `basic_logical_moves`: the two classic local rules; the `to_open` /
`to_flag` sets are modeled as deduplicated sorted lists. -/
def basic_logical_moves (b : Board) : List Move :=
  let constraints := build_constraints b
  let to_open := sort_coords (constraints.flatMap basic_contrib_open).dedup
  let to_flag := sort_coords (constraints.flatMap basic_contrib_flag).dedup
  (to_open.map (fun p => { action := ActionKind.openA, row := p.1, col := p.2 }))
    ++ (to_flag.map (fun p => { action := ActionKind.flagA, row := p.1, col := p.2 }))

/-- The `processed` list of `CSPSolver._subset_reasoning`: each consistent
constraint with its unknown set (`set(c.unknown)`, modeled as `dedup`) and
remaining count. -/
def processed_constraints (constraints : List Constraint) :
    List (Constraint × List (Nat × Nat) × Int) :=
  constraints.filterMap (fun c =>
    let unknown_set := c.unknown.dedup
    if unknown_set = [] then none
    else
      let remaining := c.remaining
      if remaining < 0 ∨ remaining > (unknown_set.length : Int) then none
      else some (c, unknown_set, remaining))

/-- `to_open` contribution of one ordered pair in `_subset_reasoning`. -/
def pair_contrib_open (A B : Constraint × List (Nat × Nat) × Int) : List (Nat × Nat) :=
  let setA := A.2.1
  let remA := A.2.2
  let setB := B.2.1
  let remB := B.2.2
  if setA.all (fun x => decide (x ∈ setB)) = false then []
  else
    let diff := setB.filter (fun x => !(decide (x ∈ setA)))
    if diff = [] then []
    else
      let diff_remaining := remB - remA
      if diff_remaining < 0 ∨ diff_remaining > (diff.length : Int) then []
      else if diff_remaining = 0 then diff
      else []

/-- `to_flag` contribution of one ordered pair in `_subset_reasoning`. -/
def pair_contrib_flag (A B : Constraint × List (Nat × Nat) × Int) : List (Nat × Nat) :=
  let setA := A.2.1
  let remA := A.2.2
  let setB := B.2.1
  let remB := B.2.2
  if setA.all (fun x => decide (x ∈ setB)) = false then []
  else
    let diff := setB.filter (fun x => !(decide (x ∈ setA)))
    if diff = [] then []
    else
      let diff_remaining := remB - remA
      if diff_remaining < 0 ∨ diff_remaining > (diff.length : Int) then []
      else if diff_remaining = 0 then []
      else if diff_remaining = (diff.length : Int) then diff
      else []

/-- `CSPSolver._subset_reasoning`: all ordered pairs of distinct indices of the
processed list. -/
def subset_reasoning (constraints : List Constraint) : List Move :=
  let processed := processed_constraints constraints
  let n := processed.length
  let pairs := (List.range n).flatMap (fun i =>
    (List.range n).filterMap (fun j => if i = j then none else some (i, j)))
  let to_open := sort_coords (pairs.flatMap (fun ij =>
    pair_contrib_open (processed.getD ij.1 default) (processed.getD ij.2 default))).dedup
  let to_flag := sort_coords (pairs.flatMap (fun ij =>
    pair_contrib_flag (processed.getD ij.1 default) (processed.getD ij.2 default))).dedup
  (to_open.map (fun p => { action := ActionKind.openA, row := p.1, col := p.2 }))
    ++ (to_flag.map (fun p => { action := ActionKind.flagA, row := p.1, col := p.2 }))

/-- `CSPSolver.next_moves`: basic rules first; subset elimination only when
they find nothing. -/
def csp_next_moves (b : Board) : List Move :=
  let moves := basic_logical_moves b
  if moves = [] then subset_reasoning (build_constraints b) else moves

/-! ### Exact enumeration (`probabilistic_solver.exact_component_probs`) -/

/-- `MAX_ENUM_UNKNOWNS`. -/
def MAX_ENUM_UNKNOWNS : Nat := 15

/-- All subsets of a list, each exactly once (for a duplicate-free input);
models the enumeration `for k in 0..n: for each k-subset` of
`itertools.combinations`. -/
def subsets_list {α : Type} : List α → List (List α)
  | [] => [[]]
  | a :: t => subsets_list t ++ (subsets_list t).map (fun s => a :: s)

/-- One constraint check inside the enumeration:
`sum of assigned mines among c.unknown + c.flagged == c.clue`, where the
assignment is the subset `S` of mined cells. -/
def subset_satisfies (S : List (Nat × Nat)) (c : Constraint) : Bool :=
  decide (c.unknown.countP (fun u => decide (u ∈ S)) + c.flagged = c.clue)

/-- `sorted({coord for c in component for coord in c.unknown})`. -/
def component_unknowns (component : List Constraint) : List (Nat × Nat) :=
  sort_coords (component.flatMap (fun c => c.unknown)).dedup

/-- The satisfying assignments of a component: subsets of the unknowns that
satisfy every constraint. -/
def satisfying_subsets (component : List Constraint) : List (List (Nat × Nat)) :=
  (subsets_list (component_unknowns component)).filter
    (fun S => component.all (subset_satisfies S))

/-- `exact_component_probs`: `None` above the cutoff or when no assignment
satisfies the component; otherwise each unknown's probability
`counts[coord] / total` (float division modeled exactly in `ℚ`). -/
def exact_component_probs (component : List Constraint) :
    Option (List ((Nat × Nat) × ℚ)) :=
  let unknowns := component_unknowns component
  if unknowns.length > MAX_ENUM_UNKNOWNS then none
  else
    let sats := satisfying_subsets component
    let total := sats.length
    if total = 0 then none
    else some (unknowns.map (fun u =>
      (u, ((sats.countP (fun S => decide (u ∈ S)) : ℚ) / (total : ℚ)))))

/-! ### Specification-side definitions

These render the wording of the specification (reachability through
zero-adjacency cells, exact probabilities as ratios of counted mine
assignments) independently of the code, for comparison with the embedded
functions. -/

/-- In-bounds as a predicate on coordinate pairs. -/
def inb (b : Board) (p : Nat × Nat) : Prop := p.1 < b.rows ∧ p.2 < b.cols

/-- A cell the flood fill may reveal: in bounds, Hidden (hence unflagged),
and not a mine. -/
def openable (b : Board) (p : Nat × Nat) : Prop :=
  inb b p ∧ (get_cell b p.1 p.2).state = CellState.unopened ∧
    (get_cell b p.1 p.2).is_mine = false

/-- One flood step: from a revealable zero-adjacency cell to a revealable
neighbor. -/
def zero_step (b : Board) (p q : Nat × Nat) : Prop :=
  openable b p ∧ (get_cell b p.1 p.2).adjacent_mines = 0 ∧
    q ∈ neighbor_coords b p.1 p.2 ∧ openable b q

/-- Cells the flood fill starting at `s` should reveal, per the
specification: reflexive-transitive closure of `zero_step`. -/
def reach (b : Board) (s q : Nat × Nat) : Prop :=
  Relation.ReflTransGen (zero_step b) s q

/-- A Hidden, non-mine, zero-adjacency cell. -/
def zero_cell (b : Board) (p : Nat × Nat) : Prop :=
  openable b p ∧ (get_cell b p.1 p.2).adjacent_mines = 0

/-- Adjacency between zero-adjacency revealable cells. -/
def zz_step (b : Board) (p q : Nat × Nat) : Prop :=
  zero_cell b p ∧ q ∈ neighbor_coords b p.1 p.2 ∧ zero_cell b q

/-- The connected region of Hidden zero-adjacency non-mine cells reachable
from `s`. -/
def zero_region (b : Board) (s q : Nat × Nat) : Prop :=
  Relation.ReflTransGen (zz_step b) s q

/-- The numbered boundary of the zero region of `s`: revealable numbered
cells adjacent to the region. -/
def region_boundary (b : Board) (s q : Nat × Nat) : Prop :=
  ∃ p, zero_region b s p ∧ q ∈ neighbor_coords b p.1 p.2 ∧ openable b q ∧
    (get_cell b q.1 q.2).adjacent_mines ≠ 0

/-- The set of cells the flood-fill claim says a click on `s` newly reveals:
the clicked cell itself, plus — when the clicked cell has zero adjacency —
the maximal connected zero region through `s` and its numbered boundary. -/
def claimed_reveal_set (b : Board) (s q : Nat × Nat) : Prop :=
  q = s ∨ ((get_cell b s.1 s.2).adjacent_mines = 0 ∧
    (zero_region b s q ∨ region_boundary b s q))

/-- Spec-side satisfaction of one constraint by a set `A` of mined cells. -/
def SatAssign (component : List Constraint) (A : Finset (Nat × Nat)) : Prop :=
  ∀ c ∈ component, c.unknown.countP (fun u => decide (u ∈ A)) + c.flagged = c.clue

instance (component : List Constraint) : DecidablePred (SatAssign component) :=
  fun _ => List.decidableBAll _ _

/-- Spec-side count of satisfying mine assignments of a component. -/
def total_assignments (component : List Constraint) : Nat :=
  ((component_unknowns component).toFinset.powerset.filter
    (fun A => SatAssign component A)).card

/-- Spec-side count of satisfying mine assignments in which `u` is a mine. -/
def mine_assignments (component : List Constraint) (u : Nat × Nat) : Nat :=
  ((component_unknowns component).toFinset.powerset.filter
    (fun A => SatAssign component A ∧ u ∈ A)).card

/-- Coordinates of the Open moves in a move list. -/
def open_coords (moves : List Move) : List (Nat × Nat) :=
  moves.filterMap (fun m =>
    if m.action = ActionKind.openA then some (m.row, m.col) else none)

/-- Coordinates of the Flag moves in a move list. -/
def flag_coords (moves : List Move) : List (Nat × Nat) :=
  moves.filterMap (fun m =>
    if m.action = ActionKind.flagA then some (m.row, m.col) else none)

/-! ### Concrete boards used in witnesses and counterexamples -/

/-- The fresh 2×2 board with one mine; exactly `board_new 2 2 1`. -/
def wb0 : Board :=
  { rows := 2, cols := 2, num_mines := 1, mines_placed := false, game_over := false,
    win := false, grid := List.replicate 4 Cell.fresh }

/-- `wb0` after placing the mine sample `[(1,1)]` on first click `(0,0)`. -/
def wb0_placed : Board :=
  { rows := 2, cols := 2, num_mines := 1, mines_placed := true, game_over := false,
    win := false,
    grid := [⟨false, 1, CellState.unopened⟩, ⟨false, 1, CellState.unopened⟩,
             ⟨false, 1, CellState.unopened⟩, ⟨true, 0, CellState.unopened⟩] }

/-- A lost 1×2 game (mine at `(0,1)`, flags terminal): `open_cell` is a no-op
here although `(0,0)` is Hidden and safe. -/
def bC2cex : Board :=
  { rows := 1, cols := 2, num_mines := 1, mines_placed := true, game_over := true,
    win := false,
    grid := [⟨false, 1, CellState.unopened⟩, ⟨true, 0, CellState.unopened⟩] }

/-- A live 1×3 board after mine placement (mine at `(0,2)`), used to witness
the flood-fill theorem: opening `(0,0)` reveals `(0,0)` and the numbered
boundary `(0,1)`. -/
def bC2wit : Board :=
  { rows := 1, cols := 3, num_mines := 1, mines_placed := true, game_over := false,
    win := false,
    grid := [⟨false, 0, CellState.unopened⟩, ⟨false, 1, CellState.unopened⟩,
             ⟨true, 0, CellState.unopened⟩] }

/-- A fresh 2×2 board with `(0,0)` flagged and mines not yet placed. -/
def bC8cex : Board :=
  { rows := 2, cols := 2, num_mines := 1, mines_placed := false, game_over := false,
    win := false,
    grid := [⟨false, 0, CellState.flagged⟩, Cell.fresh, Cell.fresh, Cell.fresh] }

/-- What `open_cell` on the flagged cell of `bC8cex` actually produces: mine
placement fires before the flag check, mutating the board. -/
def bC8mut : Board :=
  { rows := 2, cols := 2, num_mines := 1, mines_placed := true, game_over := false,
    win := false,
    grid := [⟨false, 1, CellState.flagged⟩, ⟨false, 1, CellState.unopened⟩,
             ⟨false, 1, CellState.unopened⟩, ⟨true, 0, CellState.unopened⟩] }

/-- A 2×3 board whose three opened clue-1 cells produce a subset-elimination
pair but no basic-rule move. -/
def bC4wit : Board :=
  { rows := 2, cols := 3, num_mines := 1, mines_placed := true, game_over := false,
    win := false,
    grid := [⟨false, 1, CellState.opened⟩, ⟨false, 1, CellState.opened⟩,
             ⟨false, 1, CellState.opened⟩, Cell.fresh, Cell.fresh, Cell.fresh] }

/-! ## Grid index arithmetic and cell access -/

theorem idx_lt {b : Board} (hwf : b.WF) {r c : Nat} (hr : r < b.rows) (hc : c < b.cols) :
    r * b.cols + c < b.grid.length := by
  rw [hwf]
  calc r * b.cols + c < r * b.cols + b.cols := Nat.add_lt_add_left hc _
    _ = (r + 1) * b.cols := by ring
    _ ≤ b.rows * b.cols := mul_le_mul_right' hr _

theorem idx_div {cols r c : Nat} (hc : c < cols) : (r * cols + c) / cols = r := by
  have h0 : 0 < cols := lt_of_le_of_lt (Nat.zero_le _) hc
  rw [mul_comm, Nat.mul_add_div h0, Nat.div_eq_of_lt hc, Nat.add_zero]

theorem idx_mod {cols r c : Nat} (hc : c < cols) : (r * cols + c) % cols = c := by
  have h0 : 0 < cols := lt_of_le_of_lt (Nat.zero_le _) hc
  rw [mul_comm, Nat.mul_add_mod, Nat.mod_eq_of_lt hc]

theorem idx_inj {cols r c r' c' : Nat} (hc : c < cols) (hc' : c' < cols)
    (h : r * cols + c = r' * cols + c') : r = r' ∧ c = c' := by
  constructor
  · have h1 := congrArg (fun x => x / cols) h
    simpa [idx_div hc, idx_div hc'] using h1
  · have h1 := congrArg (fun x => x % cols) h
    simpa [idx_mod hc, idx_mod hc'] using h1

theorem set_cell_rows (b : Board) (r c : Nat) (x : Cell) : (set_cell b r c x).rows = b.rows := rfl

theorem set_cell_cols (b : Board) (r c : Nat) (x : Cell) : (set_cell b r c x).cols = b.cols := rfl

theorem set_cell_flags (b : Board) (r c : Nat) (x : Cell) :
    (set_cell b r c x).num_mines = b.num_mines ∧
    (set_cell b r c x).mines_placed = b.mines_placed ∧
    (set_cell b r c x).game_over = b.game_over ∧
    (set_cell b r c x).win = b.win := ⟨rfl, rfl, rfl, rfl⟩

theorem set_cell_grid_length (b : Board) (r c : Nat) (x : Cell) :
    (set_cell b r c x).grid.length = b.grid.length := List.length_set ..

theorem set_cell_WF {b : Board} (hwf : b.WF) (r c : Nat) (x : Cell) :
    (set_cell b r c x).WF := by
  simp only [Board.WF, set_cell_grid_length, set_cell_rows, set_cell_cols]
  exact hwf

theorem get_cell_set_same {b : Board} (hwf : b.WF) {r c : Nat} (hr : r < b.rows)
    (hc : c < b.cols) (x : Cell) : get_cell (set_cell b r c x) r c = x := by
  simp only [get_cell, set_cell, List.getD_eq_getElem?_getD]
  rw [List.getElem?_set_self (idx_lt hwf hr hc)]
  rfl

theorem get_cell_set_ne {b : Board} {r c r' c' : Nat} (hc : c < b.cols) (hc' : c' < b.cols)
    (hne : ¬((r', c') = (r, c))) (x : Cell) :
    get_cell (set_cell b r c x) r' c' = get_cell b r' c' := by
  have hij : r * b.cols + c ≠ r' * b.cols + c' := by
    intro he
    obtain ⟨h1, h2⟩ := idx_inj hc hc' he
    exact hne (by rw [h1, h2])
  simp only [get_cell, set_cell, List.getD_eq_getElem?_getD]
  rw [List.getElem?_set_ne hij]

theorem getD_map_range (g : List Cell) (f : Nat → Cell) {i : Nat} (h : i < g.length) :
    ((List.range g.length).map f).getD i Cell.fresh = f i := by
  rw [List.getD_eq_getElem?_getD, List.getElem?_map, List.getElem?_range h]
  rfl

/-! ## Mine placement and adjacency computation, pointwise -/

theorem mark_mines_fields (b : Board) (mines : List (Nat × Nat)) :
    (mark_mines b mines).rows = b.rows ∧ (mark_mines b mines).cols = b.cols ∧
    (mark_mines b mines).num_mines = b.num_mines ∧
    (mark_mines b mines).mines_placed = b.mines_placed ∧
    (mark_mines b mines).game_over = b.game_over ∧
    (mark_mines b mines).win = b.win := ⟨rfl, rfl, rfl, rfl, rfl, rfl⟩

theorem mark_mines_grid_length (b : Board) (mines : List (Nat × Nat)) :
    (mark_mines b mines).grid.length = b.grid.length := by
  simp [mark_mines]

theorem mark_mines_WF {b : Board} (hwf : b.WF) (mines : List (Nat × Nat)) :
    (mark_mines b mines).WF := by
  simp only [Board.WF, mark_mines_grid_length]
  exact hwf

theorem get_cell_mark_mines {b : Board} (hwf : b.WF) {r c : Nat} (hr : r < b.rows)
    (hc : c < b.cols) (mines : List (Nat × Nat)) :
    get_cell (mark_mines b mines) r c =
      (if (r, c) ∈ mines then { get_cell b r c with is_mine := true } else get_cell b r c) := by
  have hidx := idx_lt hwf hr hc
  show ((List.range b.grid.length).map _).getD (r * b.cols + c) Cell.fresh = _
  rw [getD_map_range _ _ hidx]
  simp only [idx_div hc, idx_mod hc]
  rfl

theorem compute_fields (b : Board) :
    (compute_adjacent_mine_counts b).rows = b.rows ∧
    (compute_adjacent_mine_counts b).cols = b.cols ∧
    (compute_adjacent_mine_counts b).num_mines = b.num_mines ∧
    (compute_adjacent_mine_counts b).mines_placed = b.mines_placed ∧
    (compute_adjacent_mine_counts b).game_over = b.game_over ∧
    (compute_adjacent_mine_counts b).win = b.win := ⟨rfl, rfl, rfl, rfl, rfl, rfl⟩

theorem compute_grid_length (b : Board) :
    (compute_adjacent_mine_counts b).grid.length = b.grid.length := by
  simp [compute_adjacent_mine_counts]

theorem compute_WF {b : Board} (hwf : b.WF) : (compute_adjacent_mine_counts b).WF := by
  simp only [Board.WF, compute_grid_length]
  exact hwf

theorem get_cell_compute {b : Board} (hwf : b.WF) {r c : Nat} (hr : r < b.rows)
    (hc : c < b.cols) :
    get_cell (compute_adjacent_mine_counts b) r c =
      (if (get_cell b r c).is_mine then { get_cell b r c with adjacent_mines := 0 }
       else { get_cell b r c with adjacent_mines := count_mine_neighbors b r c }) := by
  have hidx := idx_lt hwf hr hc
  show ((List.range b.grid.length).map _).getD (r * b.cols + c) Cell.fresh = _
  rw [getD_map_range _ _ hidx]
  simp only [idx_div hc, idx_mod hc]
  rfl

/-! ## Counting mines -/

theorem idx_lt_mul {rows cols r c : Nat} (hr : r < rows) (hc : c < cols) :
    r * cols + c < rows * cols := by
  calc r * cols + c < r * cols + cols := Nat.add_lt_add_left hc _
    _ = (r + 1) * cols := by ring
    _ ≤ rows * cols := mul_le_mul_right' hr _

theorem countP_congr_bool {α : Type} {l : List α} {p q : α → Bool}
    (h : ∀ x ∈ l, p x = q x) : l.countP p = l.countP q := by
  refine List.countP_congr (fun x hx => ?_)
  rw [h x hx]

theorem countP_or_disjoint {α : Type} (l : List α) (p q : α → Bool)
    (hdis : ∀ x ∈ l, ¬(p x = true ∧ q x = true)) :
    l.countP (fun x => p x || q x) = l.countP p + l.countP q := by
  induction l with
  | nil => simp
  | cons a t ih =>
    have ha := hdis a (List.mem_cons_self a t)
    rw [List.countP_cons, List.countP_cons, List.countP_cons,
      ih (fun x hx => hdis x (List.mem_cons_of_mem a hx))]
    by_cases hp : p a = true <;> by_cases hq : q a = true <;>
      simp [hp, hq] at ha ⊢ <;> omega

theorem nodup_all_eq {α : Type} {l : List α} {a : α} (hnd : l.Nodup) (hmem : a ∈ l)
    (hall : ∀ x ∈ l, x = a) : l = [a] := by
  cases l with
  | nil => cases hmem
  | cons b t =>
    have hb : b = a := hall b (List.mem_cons_self b t)
    cases t with
    | nil => rw [hb]
    | cons d u =>
      exfalso
      have hd : d = a := hall d (by simp)
      have := (List.nodup_cons.mp hnd).1
      exact this (by rw [hb, ← hd]; simp)

theorem countP_getD_range (g : List Cell) (p : Cell → Bool) :
    (List.range g.length).countP (fun i => p (g.getD i Cell.fresh)) = g.countP p := by
  induction g with
  | nil => simp
  | cons a t ih =>
    have h1 : (List.range (a :: t).length).countP (fun i => p ((a :: t).getD i Cell.fresh))
        = ((List.range t.length).map Nat.succ).countP
            (fun i => p ((a :: t).getD i Cell.fresh))
          + (if p a = true then 1 else 0) := by
      rw [List.length_cons, List.range_succ_eq_map, List.countP_cons]
      rfl
    have h2 : ((List.range t.length).map Nat.succ).countP
          (fun i => p ((a :: t).getD i Cell.fresh))
        = (List.range t.length).countP (fun i => p (t.getD i Cell.fresh)) := by
      rw [List.countP_map]
      refine countP_congr_bool (fun x _ => ?_)
      rfl
    rw [h1, h2, ih, List.countP_cons]

theorem countP_range_one {n m : Nat} (q : Nat → Bool) (hi : m < n) (hq : q m = true)
    (huniq : ∀ j, j < n → q j = true → j = m) : (List.range n).countP q = 1 := by
  rw [List.countP_eq_length_filter]
  have hnd : ((List.range n).filter q).Nodup := (List.nodup_range n).filter q
  have hfil : (List.range n).filter q = [m] := by
    refine nodup_all_eq hnd ?_ ?_
    · rw [List.mem_filter, List.mem_range]
      exact ⟨hi, hq⟩
    · intro x hx
      rw [List.mem_filter, List.mem_range] at hx
      exact huniq x hx.1 hx.2
  rw [hfil]
  rfl

theorem countP_range_coords {rows cols : Nat} (mines : List (Nat × Nat)) (hnd : mines.Nodup)
    (hin : ∀ p ∈ mines, p.1 < rows ∧ p.2 < cols) :
    (List.range (rows * cols)).countP (fun i => decide ((i / cols, i % cols) ∈ mines))
      = mines.length := by
  induction mines with
  | nil => simp
  | cons p t ih =>
    obtain ⟨hp1, hp2⟩ := hin p (List.mem_cons_self p t)
    have hnd' := List.nodup_cons.mp hnd
    have hrw : (List.range (rows * cols)).countP
          (fun i => decide ((i / cols, i % cols) ∈ p :: t))
        = (List.range (rows * cols)).countP
          (fun i => decide ((i / cols, i % cols) = p) || decide ((i / cols, i % cols) ∈ t)) := by
      refine countP_congr_bool (fun x _ => ?_)
      simp [List.mem_cons]
    have hdis : ∀ x ∈ List.range (rows * cols),
        ¬(decide ((x / cols, x % cols) = p) = true ∧ decide ((x / cols, x % cols) ∈ t) = true) := by
      intro x _ hx
      obtain ⟨hxa, hxb⟩ := hx
      simp only [decide_eq_true_eq] at hxa hxb
      exact hnd'.1 (hxa ▸ hxb)
    have hone : (List.range (rows * cols)).countP
        (fun i => decide ((i / cols, i % cols) = p)) = 1 := by
      refine countP_range_one _ (idx_lt_mul hp1 hp2) ?_ ?_
      · simp [idx_div hp2, idx_mod hp2]
      · intro j hj hq
        simp only [decide_eq_true_eq] at hq
        have h1 : j / cols = p.1 := congrArg Prod.fst hq
        have h2 : j % cols = p.2 := congrArg Prod.snd hq
        rw [← h1, ← h2]
        exact (Nat.div_add_mod' j cols).symm
    have hsum := countP_or_disjoint (List.range (rows * cols))
      (fun i => decide ((i / cols, i % cols) = p))
      (fun i => decide ((i / cols, i % cols) ∈ t)) hdis
    rw [hrw, hsum, hone, ih hnd'.2 (fun x hx => hin x (List.mem_cons_of_mem p hx))]
    simp [Nat.add_comm]

theorem getD_replicate_of_lt {n i : Nat} {a d : Cell} (h : i < n) :
    (List.replicate n a).getD i d = a := by
  rw [List.getD_eq_getElem?_getD, List.getElem?_replicate, if_pos h]
  rfl

theorem count_mines_mark_fresh {rows cols nm : Nat}
    (mines : List (Nat × Nat)) (hnd : mines.Nodup)
    (hin : ∀ p ∈ mines, p.1 < rows ∧ p.2 < cols) :
    count_mines (mark_mines
      { rows := rows, cols := cols, num_mines := nm, mines_placed := false,
        game_over := false, win := false,
        grid := List.replicate (rows * cols) Cell.fresh } mines) = mines.length := by
  simp only [count_mines, mark_mines, List.countP_map]
  rw [List.length_replicate]
  have hcongr : ∀ i ∈ List.range (rows * cols),
      ((fun cell => cell.is_mine) ∘ fun i =>
        let cell := (List.replicate (rows * cols) Cell.fresh).getD i Cell.fresh
        if (i / cols, i % cols) ∈ mines then { cell with is_mine := true } else cell) i
      = decide ((i / cols, i % cols) ∈ mines) := by
    intro i hi
    rw [List.mem_range] at hi
    have hg : (List.replicate (rows * cols) Cell.fresh).getD i Cell.fresh = Cell.fresh :=
      getD_replicate_of_lt hi
    by_cases hm : (i / cols, i % cols) ∈ mines
    · simp only [Function.comp_apply, hg, if_pos hm]
      simp [hm]
    · simp only [Function.comp_apply, hg, if_neg hm]
      simp [hm, Cell.fresh]
  rw [countP_congr_bool hcongr]
  exact countP_range_coords mines hnd hin

theorem is_mine_of_ite_adjacent (cond : Prop) [Decidable cond] (x : Cell) (n1 n2 : Nat) :
    (if cond then { x with adjacent_mines := n1 }
     else { x with adjacent_mines := n2 }).is_mine = x.is_mine := by
  by_cases hc : cond <;> simp [hc]

theorem count_mines_compute (b : Board) :
    count_mines (compute_adjacent_mine_counts b) = count_mines b := by
  simp only [count_mines, compute_adjacent_mine_counts, List.countP_map]
  have hcongr : ∀ i ∈ List.range b.grid.length,
      ((fun cell => cell.is_mine) ∘ fun i =>
        let cell := b.grid.getD i Cell.fresh
        if cell.is_mine then { cell with adjacent_mines := 0 }
        else { cell with adjacent_mines := count_mine_neighbors b (i / b.cols) (i % b.cols) }) i
      = (b.grid.getD i Cell.fresh).is_mine := by
    intro i _
    exact is_mine_of_ite_adjacent _ _ _ _
  rw [countP_congr_bool hcongr]
  exact countP_getD_range b.grid _

/-! ## Neighbor coordinates -/

theorem mem_neighbor_coords_inb {b : Board} {r c : Nat} {p : Nat × Nat}
    (hp : p ∈ neighbor_coords b r c) : inb b p := by
  simp only [neighbor_coords, List.mem_filterMap] at hp
  obtain ⟨d, _, hd⟩ := hp
  by_cases hcond : 0 ≤ (r : Int) + d.1 ∧ (r : Int) + d.1 < (b.rows : Int) ∧
      0 ≤ (c : Int) + d.2 ∧ (c : Int) + d.2 < (b.cols : Int)
  · rw [if_pos hcond] at hd
    obtain ⟨h1, h2, h3, h4⟩ := hcond
    cases hd
    refine ⟨?_, ?_⟩
    · show ((r : Int) + d.1).toNat < b.rows
      omega
    · show ((c : Int) + d.2).toNat < b.cols
      omega
  · rw [if_neg hcond] at hd
    cases hd

theorem mem_neighbor_coords_ne {b : Board} {r c : Nat} {p : Nat × Nat}
    (hp : p ∈ neighbor_coords b r c) : p ≠ (r, c) := by
  simp only [neighbor_coords, List.mem_filterMap] at hp
  obtain ⟨d, hdmem, hd⟩ := hp
  by_cases hcond : 0 ≤ (r : Int) + d.1 ∧ (r : Int) + d.1 < (b.rows : Int) ∧
      0 ≤ (c : Int) + d.2 ∧ (c : Int) + d.2 < (b.cols : Int)
  · rw [if_pos hcond] at hd
    obtain ⟨h1, h2, h3, h4⟩ := hcond
    cases hd
    intro he
    have he1 : ((r : Int) + d.1).toNat = r := congrArg Prod.fst he
    have he2 : ((c : Int) + d.2).toNat = c := congrArg Prod.snd he
    have hall : ∀ e ∈ neighbor_offsets, ¬(e.1 = 0 ∧ e.2 = 0) := by decide
    exact hall d hdmem ⟨by omega, by omega⟩
  · rw [if_neg hcond] at hd
    cases hd

/-! ## `all_positions` and `place_mines` -/

theorem length_filterMap_if {α β : Type} (l : List α) (P : α → Prop) [DecidablePred P]
    (g : α → β) :
    (l.filterMap (fun c => if P c then none else some (g c))).length
      = l.length - l.countP (fun c => decide (P c)) := by
  induction l with
  | nil => rfl
  | cons a t ih =>
    have hle : t.countP (fun c => decide (P c)) ≤ t.length :=
      List.countP_le_length _
    by_cases hp : P a
    · rw [List.filterMap_cons]
      simp only [if_pos hp]
      rw [ih, List.countP_cons]
      simp only [decide_eq_true_eq, if_pos hp, List.length_cons]
      omega
    · rw [List.filterMap_cons]
      simp only [if_neg hp]
      rw [List.length_cons, ih, List.countP_cons]
      simp only [decide_eq_true_eq, if_neg hp, List.length_cons]
      omega

theorem sum_map_range_sub_one {n m k : Nat} (hm : m < n) (hk : 1 ≤ k) :
    ((List.range n).map (fun r => k - (if r = m then 1 else 0))).sum = n * k - 1 := by
  induction n with
  | zero => omega
  | succ n ih =>
    rw [List.range_succ, List.map_append, List.sum_append]
    simp only [List.map_cons, List.map_nil, List.sum_cons, List.sum_nil]
    have hmul : (n + 1) * k = n * k + k := Nat.succ_mul n k
    by_cases hm' : m = n
    · have hpre : (List.range n).map (fun r => k - (if r = m then 1 else 0))
          = (List.range n).map (fun _ => k) := by
        refine List.map_congr_left (fun r hr => ?_)
        rw [List.mem_range] at hr
        rw [if_neg (by omega)]
        omega
      rw [hpre]
      have hrep : (List.range n).map (fun _ : Nat => k) = List.replicate n k := by
        have hmc := List.map_const (List.range n) k
        simp only [Function.const, List.length_range] at hmc
        exact hmc
      rw [hrep, List.sum_replicate, if_pos hm'.symm, smul_eq_mul]
      omega
    · have hmn : m < n := by omega
      rw [ih hmn, if_neg (fun h => hm' h.symm)]
      have hk1 : k ≤ n * k := Nat.le_mul_of_pos_left k (by omega)
      omega

theorem mem_all_positions {b : Board} {first p : Nat × Nat} :
    p ∈ all_positions b first ↔ p.1 < b.rows ∧ p.2 < b.cols ∧ p ≠ first := by
  simp only [all_positions, List.mem_flatMap, List.mem_filterMap, List.mem_range]
  constructor
  · rintro ⟨r, hr, c, hc, hif⟩
    by_cases hf : (r, c) = first
    · rw [if_pos hf] at hif
      cases hif
    · rw [if_neg hf] at hif
      cases hif
      exact ⟨hr, hc, hf⟩
  · rintro ⟨h1, h2, h3⟩
    refine ⟨p.1, h1, p.2, h2, ?_⟩
    rw [if_neg (by simpa using h3)]

theorem length_all_positions {b : Board} {first : Nat × Nat}
    (h1 : first.1 < b.rows) (h2 : first.2 < b.cols) :
    (all_positions b first).length = b.rows * b.cols - 1 := by
  rw [all_positions, List.length_flatMap]
  have hinner : ∀ r ∈ List.range b.rows,
      (List.length ∘ fun r => (List.range b.cols).filterMap
        (fun c => if (r, c) = first then none else some (r, c))) r
      = b.cols - (if r = first.1 then 1 else 0) := by
    intro r _
    simp only [Function.comp_apply]
    rw [length_filterMap_if, List.length_range]
    congr 1
    by_cases hr : r = first.1
    · rw [if_pos hr]
      refine countP_range_one _ h2 ?_ ?_
      · simp only [decide_eq_true_eq]
        rw [hr]
      · intro j _ hj
        simp only [decide_eq_true_eq] at hj
        exact congrArg Prod.snd hj
    · rw [if_neg hr]
      rw [List.countP_eq_zero]
      intro a _
      simp only [decide_eq_true_eq]
      intro hco
      exact hr (congrArg Prod.fst hco)
  rw [List.map_congr_left hinner]
  exact sum_map_range_sub_one h1 (by omega)

theorem place_mines_ok {b : Board} {first : Nat × Nat} {sample : List (Nat × Nat)}
    (hn : ¬ b.num_mines > (all_positions b first).length) :
    place_mines b first sample
      = Except.ok { compute_adjacent_mine_counts (mark_mines b sample) with
          mines_placed := true } := by
  rw [place_mines, if_neg hn]

theorem place_mines_ok_inv {b b' : Board} {first : Nat × Nat} {sample : List (Nat × Nat)}
    (hok : place_mines b first sample = Except.ok b') :
    b' = { compute_adjacent_mine_counts (mark_mines b sample) with mines_placed := true } := by
  by_cases hn : b.num_mines > (all_positions b first).length
  · rw [place_mines, if_pos hn] at hok
    cases hok
  · rw [place_mines_ok hn] at hok
    exact (Except.ok.inj hok).symm

theorem is_mine_get_compute {g : Board} (hwf : g.WF) {r c : Nat}
    (hr : r < g.rows) (hc : c < g.cols) :
    (get_cell (compute_adjacent_mine_counts g) r c).is_mine = (get_cell g r c).is_mine := by
  rw [get_cell_compute hwf hr hc]
  exact is_mine_of_ite_adjacent _ _ _ _

theorem count_mine_neighbors_compute {g : Board} (hwf : g.WF) (r c : Nat) :
    count_mine_neighbors (compute_adjacent_mine_counts g) r c
      = count_mine_neighbors g r c := by
  have hnb : neighbor_coords (compute_adjacent_mine_counts g) r c = neighbor_coords g r c := rfl
  rw [count_mine_neighbors, count_mine_neighbors, hnb]
  refine countP_congr_bool (fun p hp => ?_)
  have hin := mem_neighbor_coords_inb hp
  exact is_mine_get_compute hwf hin.1 hin.2

/-! ## Claims C7 and C10: adjacency counts after placement -/

/-- C7: for every valid configuration, once mines have been placed
(`place_mines` succeeded), every non-mine cell's `adjacent_mines` equals the
exact number of its in-bounds neighboring cells that are mines. -/
theorem C7_adjacency_correctness (b b' : Board) (first : Nat × Nat)
    (sample : List (Nat × Nat)) (hwf : b.WF)
    (hok : place_mines b first sample = Except.ok b')
    (r c : Nat) (hr : r < b'.rows) (hc : c < b'.cols)
    (hsafe : (get_cell b' r c).is_mine = false) :
    (get_cell b' r c).adjacent_mines = count_mine_neighbors b' r c := by
  have hb' := place_mines_ok_inv hok
  have hget : get_cell b' r c
      = get_cell (compute_adjacent_mine_counts (mark_mines b sample)) r c := by
    rw [hb']
    rfl
  have hcnt : count_mine_neighbors b' r c
      = count_mine_neighbors (compute_adjacent_mine_counts (mark_mines b sample)) r c := by
    rw [hb']
    rfl
  have hwfm : (mark_mines b sample).WF := mark_mines_WF hwf sample
  have hr' : r < (mark_mines b sample).rows := by
    have he : b'.rows = (mark_mines b sample).rows := by
      rw [hb']
      rfl
    rw [← he]
    exact hr
  have hc' : c < (mark_mines b sample).cols := by
    have he : b'.cols = (mark_mines b sample).cols := by
      rw [hb']
      rfl
    rw [← he]
    exact hc
  have hmain := get_cell_compute hwfm hr' hc'
  cases hm : (get_cell (mark_mines b sample) r c).is_mine with
  | true =>
    exfalso
    rw [hget, hmain, if_pos hm] at hsafe
    simp only at hsafe
    rw [hm] at hsafe
    cases hsafe
  | false =>
    rw [hget, hcnt, hmain, if_neg (by simp [hm]), count_mine_neighbors_compute hwfm]

/-- C10 (implicit): after every mine placement, every mine cell has
`adjacent_mines = 0`, regardless of its neighborhood; the exact-count
property is restricted to non-mine cells. -/
theorem C10_mine_adjacency_zero (b b' : Board) (first : Nat × Nat)
    (sample : List (Nat × Nat)) (hwf : b.WF)
    (hok : place_mines b first sample = Except.ok b')
    (r c : Nat) (hr : r < b'.rows) (hc : c < b'.cols)
    (hm : (get_cell b' r c).is_mine = true) :
    (get_cell b' r c).adjacent_mines = 0 := by
  have hb' := place_mines_ok_inv hok
  have hget : get_cell b' r c
      = get_cell (compute_adjacent_mine_counts (mark_mines b sample)) r c := by
    rw [hb']
    rfl
  have hwfm : (mark_mines b sample).WF := mark_mines_WF hwf sample
  have hr' : r < (mark_mines b sample).rows := by
    have he : b'.rows = (mark_mines b sample).rows := by
      rw [hb']
      rfl
    rw [← he]
    exact hr
  have hc' : c < (mark_mines b sample).cols := by
    have he : b'.cols = (mark_mines b sample).cols := by
      rw [hb']
      rfl
    rw [← he]
    exact hc
  have hmain := get_cell_compute hwfm hr' hc'
  cases hmm : (get_cell (mark_mines b sample) r c).is_mine with
  | false =>
    exfalso
    rw [hget, hmain, if_neg (by simp [hmm])] at hm
    simp only at hm
    rw [hmm] at hm
    cases hm
  | true =>
    rw [hget, hmain, if_pos hmm]

theorem C7_adjacency_correctness_witness :
    wb0.WF ∧ place_mines wb0 (0, 0) [(1, 1)] = Except.ok wb0_placed ∧
    (get_cell wb0_placed 0 0).is_mine = false ∧
    (get_cell wb0_placed 0 0).adjacent_mines = count_mine_neighbors wb0_placed 0 0 :=
  ⟨by rfl, by rfl, by decide,
    C7_adjacency_correctness wb0 wb0_placed (0, 0) [(1, 1)] (by rfl) (by rfl)
      0 0 (by decide) (by decide) (by decide)⟩

theorem C10_mine_adjacency_zero_witness :
    wb0.WF ∧ place_mines wb0 (0, 0) [(1, 1)] = Except.ok wb0_placed ∧
    (get_cell wb0_placed 1 1).is_mine = true ∧
    (get_cell wb0_placed 1 1).adjacent_mines = 0 :=
  ⟨by rfl, by rfl, by decide,
    C10_mine_adjacency_zero wb0 wb0_placed (0, 0) [(1, 1)] (by rfl) (by rfl)
      1 1 (by decide) (by decide) (by decide)⟩

/-! ## Claim C9: out-of-bounds moves (corrected: the code raises) -/

/-- C9 counterexample: the claim says out-of-bounds `open_cell` / `flag_cell`
"return normally without raising"; the code raises `IndexError`
(modeled `Except.error`) on both. -/
theorem C9_out_of_bounds_cex :
    open_cell [] wb0 (-1) 0 = Except.error () ∧ flag_cell wb0 0 5 = Except.error () :=
  ⟨rfl, rfl⟩

/-- C9 (amended): for every coordinate outside the board, `open_cell` and
`flag_cell` raise `IndexError` (modeled as `Except.error`) before any
mutation, so no mutated board is ever produced. -/
theorem C9_out_of_bounds_raises (b : Board) (sample : List (Nat × Nat)) (row col : Int)
    (hout : in_bounds b row col = false) :
    open_cell sample b row col = Except.error () ∧ flag_cell b row col = Except.error () := by
  constructor
  · rw [open_cell, if_pos hout]
  · rw [flag_cell, if_pos hout]

theorem C9_out_of_bounds_raises_witness :
    in_bounds wb0 (-1) 0 = false ∧
    (open_cell [] wb0 (-1) 0 = Except.error () ∧ flag_cell wb0 (-1) 0 = Except.error ()) :=
  ⟨by decide, C9_out_of_bounds_raises wb0 [] (-1) 0 (by decide)⟩

/-! ## Claim C8: no-op idempotence (corrected: a first-click `open_cell` on a
Flagged cell of a fresh board places mines before the flag check) -/

/-- C8 counterexample: on a fresh board with `(0,0)` flagged, `open_cell(0,0)`
triggers mine placement and returns a mutated board, although the claim says
the call on a Flagged cell leaves the state byte-for-byte unchanged. -/
theorem C8_flagged_fresh_cex :
    in_bounds bC8cex 0 0 = true ∧ bC8cex.game_over = false ∧
    (get_cell bC8cex 0 0).state = CellState.flagged ∧
    open_cell [(1, 1)] bC8cex 0 0 = Except.ok bC8mut ∧ bC8mut ≠ bC8cex :=
  ⟨by decide, by decide, by decide, rfl, by decide⟩

/-- C8 (amended): with in-bounds coordinates, `open_cell` is a strict no-op
when the game is over, and also — provided mines are already placed — when
the target cell is Revealed or Flagged; `flag_cell` is a strict no-op when
the game is over or the cell is Revealed. (On a fresh board, `open_cell` on
a Flagged cell still places mines first, per the counterexample.) -/
theorem C8_noop_idempotence (b : Board) (sample : List (Nat × Nat)) (row col : Int)
    (hin : in_bounds b row col = true) :
    (b.game_over = true →
      open_cell sample b row col = Except.ok b ∧ flag_cell b row col = Except.ok b)
    ∧ (b.game_over = false → b.mines_placed = true →
        ((get_cell b row.toNat col.toNat).state = CellState.opened ∨
         (get_cell b row.toNat col.toNat).state = CellState.flagged) →
        open_cell sample b row col = Except.ok b)
    ∧ ((get_cell b row.toNat col.toNat).state = CellState.opened →
        flag_cell b row col = Except.ok b) := by
  refine ⟨fun hgo => ⟨?_, ?_⟩, fun hgo hmp hst => ?_, fun hst => ?_⟩
  · simp [open_cell, hin, hgo]
  · simp [flag_cell, hin, hgo]
  · rcases hst with hst | hst <;> simp [open_cell, hin, hgo, hmp, hst]
  · cases hgo : b.game_over <;> simp [flag_cell, hin, hst, hgo]

theorem C8_noop_idempotence_witness :
    in_bounds bC2cex 0 0 = true ∧ bC2cex.game_over = true ∧
    in_bounds bC4wit 0 0 = true ∧ bC4wit.game_over = false ∧
    bC4wit.mines_placed = true ∧ (get_cell bC4wit 0 0).state = CellState.opened ∧
    (open_cell [] bC2cex 0 0 = Except.ok bC2cex ∧ flag_cell bC2cex 0 0 = Except.ok bC2cex) ∧
    open_cell [] bC4wit 0 0 = Except.ok bC4wit ∧
    flag_cell bC4wit 0 0 = Except.ok bC4wit :=
  ⟨by decide, by decide, by decide, by decide, by decide, by decide,
   (C8_noop_idempotence bC2cex [] 0 0 (by decide)).1 (by decide),
   (C8_noop_idempotence bC4wit [] 0 0 (by decide)).2.1 (by decide) (by decide)
     (Or.inl (by decide)),
   (C8_noop_idempotence bC4wit [] 0 0 (by decide)).2.2 (by decide)⟩

/-! ## Flood-loop step equations -/

theorem flood_loop_nil (b : Board) : flood_loop b [] = b := by
  rw [flood_loop]

theorem flood_loop_skip {b : Board} {r c : Nat} (rest : List (Nat × Nat))
    (h : r * b.cols + c < b.grid.length)
    (hskip : (get_cell b r c).state = CellState.opened ∨
      (get_cell b r c).state = CellState.flagged ∨ (get_cell b r c).is_mine = true) :
    flood_loop b ((r, c) :: rest) = flood_loop b rest := by
  rw [flood_loop, dif_pos h, dif_pos hskip]

theorem flood_loop_oob {b : Board} {r c : Nat} (rest : List (Nat × Nat))
    (h : ¬(r * b.cols + c < b.grid.length)) :
    flood_loop b ((r, c) :: rest) = flood_loop b rest := by
  rw [flood_loop, dif_neg h]

theorem flood_loop_step {b : Board} {r c : Nat} (rest : List (Nat × Nat))
    (h : r * b.cols + c < b.grid.length)
    (hskip : ¬((get_cell b r c).state = CellState.opened ∨
      (get_cell b r c).state = CellState.flagged ∨ (get_cell b r c).is_mine = true)) :
    flood_loop b ((r, c) :: rest)
      = flood_loop (set_cell b r c (opened_copy (get_cell b r c)))
          ((if (get_cell b r c).adjacent_mines = 0 then
              flood_push (set_cell b r c (opened_copy (get_cell b r c))) r c
            else []) ++ rest) := by
  rw [flood_loop, dif_pos h, dif_neg hskip]

/-! ## Flood-fill frame properties -/

theorem count_mines_set (b : Board) (r c : Nat) (x : Cell)
    (h : r * b.cols + c < b.grid.length)
    (hx : x.is_mine = (get_cell b r c).is_mine) :
    count_mines (set_cell b r c x) = count_mines b := by
  have hget : get_cell b r c = b.grid[r * b.cols + c] :=
    List.getD_eq_getElem _ _ h
  have hs := List.countP_set (fun cell => cell.is_mine) b.grid (r * b.cols + c) x h
  rw [count_mines, count_mines, set_cell]
  cases hpm : (b.grid[r * b.cols + c]).is_mine with
  | true =>
    have hpos : 0 < b.grid.countP (fun cell => cell.is_mine) :=
      List.countP_pos_iff.mpr ⟨b.grid[r * b.cols + c], List.getElem_mem h, hpm⟩
    have h1 : (if (true : Bool) = true then 1 else 0) = 1 := rfl
    rw [hs, hx, hget, hpm, h1]
    omega
  | false =>
    have h0 : (if (false : Bool) = true then 1 else 0) = 0 := rfl
    rw [hs, hx, hget, hpm, h0]
    omega

theorem getD_set_cell (b : Board) (r c : Nat) (x : Cell) (i : Nat) :
    (set_cell b r c x).grid.getD i Cell.fresh
      = if r * b.cols + c = i ∧ i < b.grid.length then x
        else b.grid.getD i Cell.fresh := by
  simp only [set_cell, List.getD_eq_getElem?_getD, List.getElem?_set]
  by_cases he : r * b.cols + c = i
  · by_cases h2 : i < b.grid.length
    · rw [if_pos he, if_pos (he ▸ h2), if_pos ⟨he, h2⟩]
      rfl
    · rw [if_pos he, if_neg (he ▸ h2), if_neg (fun hand => h2 hand.2),
        List.getElem?_eq_none (by omega)]
  · rw [if_neg he, if_neg (fun hand => he hand.1)]

theorem flood_loop_frame (b : Board) (stack : List (Nat × Nat)) :
    (flood_loop b stack).rows = b.rows ∧
    (flood_loop b stack).cols = b.cols ∧
    (flood_loop b stack).num_mines = b.num_mines ∧
    (flood_loop b stack).mines_placed = b.mines_placed ∧
    (flood_loop b stack).game_over = b.game_over ∧
    (flood_loop b stack).win = b.win ∧
    (flood_loop b stack).grid.length = b.grid.length ∧
    count_mines (flood_loop b stack) = count_mines b ∧
    (∀ i : Nat, (((flood_loop b stack).grid.getD i Cell.fresh).is_mine
          = (b.grid.getD i Cell.fresh).is_mine)
        ∧ (((flood_loop b stack).grid.getD i Cell.fresh).adjacent_mines
          = (b.grid.getD i Cell.fresh).adjacent_mines)) := by
  induction b, stack using flood_loop.induct with
  | case1 b =>
    rw [flood_loop_nil]
    exact ⟨rfl, rfl, rfl, rfl, rfl, rfl, rfl, rfl, fun i => ⟨rfl, rfl⟩⟩
  | case2 b r c rest h hskip ih =>
    rw [flood_loop_skip rest h hskip]
    exact ih
  | case3 b r c rest h hskip ih =>
    obtain ⟨i1, i2, i3, i4, i5, i6, i7, i8, i9⟩ := ih
    rw [flood_loop_step rest h hskip]
    have hset : ∀ i : Nat,
        ((set_cell b r c (opened_copy (get_cell b r c))).grid.getD i Cell.fresh).is_mine
          = (b.grid.getD i Cell.fresh).is_mine
        ∧ ((set_cell b r c (opened_copy (get_cell b r c))).grid.getD i Cell.fresh).adjacent_mines
          = (b.grid.getD i Cell.fresh).adjacent_mines := by
      intro i
      rw [getD_set_cell]
      by_cases hcase : r * b.cols + c = i ∧ i < b.grid.length
      · rw [if_pos hcase]
        obtain ⟨hie, _⟩ := hcase
        have hcc : get_cell b r c = b.grid.getD i Cell.fresh := by
          rw [← hie]
          rfl
        rw [opened_copy, hcc]
        exact ⟨rfl, rfl⟩
      · rw [if_neg hcase]
        exact ⟨rfl, rfl⟩
    refine ⟨i1.trans rfl, i2.trans rfl, i3.trans rfl, i4.trans rfl, i5.trans rfl, i6.trans rfl,
      i7.trans (set_cell_grid_length b r c _),
      i8.trans (count_mines_set b r c _ h rfl),
      fun i => ⟨(i9 i).1.trans (hset i).1, (i9 i).2.trans (hset i).2⟩⟩
  | case4 b r c rest h ih =>
    rw [flood_loop_oob rest h]
    exact ih

/-! ## Claim C1: first-click safety -/

theorem in_bounds_iff {b : Board} {row col : Int} :
    in_bounds b row col = true ↔
      0 ≤ row ∧ row < (b.rows : Int) ∧ 0 ≤ col ∧ col < (b.cols : Int) := by
  simp [in_bounds, and_assoc]

theorem board_new_ok_inv {rows cols m : Nat} {b0 : Board}
    (h : board_new rows cols m = Except.ok b0) :
    0 < rows ∧ 0 < cols ∧ 0 < m ∧ m < rows * cols ∧
    b0 = { rows := rows, cols := cols, num_mines := m, mines_placed := false,
           game_over := false, win := false,
           grid := List.replicate (rows * cols) Cell.fresh } := by
  by_cases h1 : rows ≤ 0 ∨ cols ≤ 0
  · rw [board_new, if_pos h1] at h
    cases h
  · by_cases h2 : m ≤ 0 ∨ m ≥ rows * cols
    · rw [board_new, if_neg h1, if_pos h2] at h
      cases h
    · rw [board_new, if_neg h1, if_neg h2] at h
      push_neg at h1 h2
      exact ⟨by omega, by omega, by omega, by omega, (Except.ok.inj h).symm⟩

theorem state_get_mark {b : Board} (hwf : b.WF) {r c : Nat} (hr : r < b.rows)
    (hc : c < b.cols) (mines : List (Nat × Nat)) :
    (get_cell (mark_mines b mines) r c).state = (get_cell b r c).state := by
  rw [get_cell_mark_mines hwf hr hc]
  by_cases hm : (r, c) ∈ mines <;> simp [hm]

theorem state_get_compute {b : Board} (hwf : b.WF) {r c : Nat} (hr : r < b.rows)
    (hc : c < b.cols) :
    (get_cell (compute_adjacent_mine_counts b) r c).state = (get_cell b r c).state := by
  rw [get_cell_compute hwf hr hc]
  by_cases hm : (get_cell b r c).is_mine = true <;> simp [hm]

theorem is_mine_get_mark {b : Board} (hwf : b.WF) {r c : Nat} (hr : r < b.rows)
    (hc : c < b.cols) (mines : List (Nat × Nat)) :
    (get_cell (mark_mines b mines) r c).is_mine
      = ((decide ((r, c) ∈ mines)) || (get_cell b r c).is_mine) := by
  rw [get_cell_mark_mines hwf hr hc]
  by_cases hm : (r, c) ∈ mines <;> simp [hm]

/-- C1: on a fresh board with a valid configuration, the first `open_cell`
call succeeds, places exactly `num_mines` mines, none of them on the clicked
cell, and never ends in a lost state. Quantified over every sample
`rng.sample(all_positions, num_mines)` could return. -/
theorem C1_first_click_safety (rows cols m : Nat) (row col : Int) (b0 : Board)
    (sample : List (Nat × Nat))
    (hnew : board_new rows cols m = Except.ok b0)
    (hin : in_bounds b0 row col = true)
    (hnd : sample.Nodup)
    (hmem : ∀ p ∈ sample, p ∈ all_positions b0 (row.toNat, col.toNat))
    (hlen : sample.length = m) :
    ∃ b1, open_cell sample b0 row col = Except.ok b1 ∧
      count_mines b1 = m ∧
      (get_cell b1 row.toNat col.toNat).is_mine = false ∧
      ¬(b1.game_over = true ∧ b1.win = false) := by
  obtain ⟨hrows, hcols, hm0, hmlt, hb0⟩ := board_new_ok_inv hnew
  have hbrows : b0.rows = rows := by rw [hb0]
  have hbcols : b0.cols = cols := by rw [hb0]
  have hbnm : b0.num_mines = m := by rw [hb0]
  have hbmp : b0.mines_placed = false := by rw [hb0]
  have hbgo : b0.game_over = false := by rw [hb0]
  have hbgrid : b0.grid = List.replicate (rows * cols) Cell.fresh := by rw [hb0]
  have hwf : b0.WF := by
    rw [Board.WF, hbgrid, hbrows, hbcols, List.length_replicate]
  have hin' := in_bounds_iff.mp hin
  rw [hbrows, hbcols] at hin'
  have hr : row.toNat < rows := by omega
  have hc : col.toNat < cols := by omega
  have hrb : row.toNat < b0.rows := by rw [hbrows]; exact hr
  have hcb : col.toNat < b0.cols := by rw [hbcols]; exact hc
  have hfl : (all_positions b0 (row.toNat, col.toNat)).length = rows * cols - 1 := by
    have hl := @length_all_positions b0 (row.toNat, col.toNat) hrb hcb
    rw [hbrows, hbcols] at hl
    exact hl
  have hnogt : ¬ (b0.num_mines > (all_positions b0 (row.toNat, col.toNat)).length) := by
    rw [hbnm, hfl]
    omega
  have hplace := @place_mines_ok b0 (row.toNat, col.toNat) sample hnogt
  have hwfm : (mark_mines b0 sample).WF := mark_mines_WF hwf sample
  have hrm : row.toNat < (mark_mines b0 sample).rows := by
    rw [(mark_mines_fields b0 sample).1]
    exact hrb
  have hcm : col.toNat < (mark_mines b0 sample).cols := by
    rw [(mark_mines_fields b0 sample).2.1]
    exact hcb
  have hnotin : (row.toNat, col.toNat) ∉ sample := by
    intro hcon
    exact (mem_all_positions.mp (hmem _ hcon)).2.2 rfl
  have hfresh : get_cell b0 row.toNat col.toNat = Cell.fresh := by
    rw [get_cell, hbgrid, hbcols]
    exact getD_replicate_of_lt (idx_lt_mul hr hc)
  have hstate : (get_cell { compute_adjacent_mine_counts (mark_mines b0 sample) with
      mines_placed := true } row.toNat col.toNat).state = CellState.unopened := by
    show (get_cell (compute_adjacent_mine_counts (mark_mines b0 sample))
      row.toNat col.toNat).state = CellState.unopened
    rw [state_get_compute hwfm hrm hcm, state_get_mark hwf hrb hcb, hfresh]
    rfl
  have hmine : (get_cell { compute_adjacent_mine_counts (mark_mines b0 sample) with
      mines_placed := true } row.toNat col.toNat).is_mine = false := by
    show (get_cell (compute_adjacent_mine_counts (mark_mines b0 sample))
      row.toNat col.toNat).is_mine = false
    rw [is_mine_get_compute hwfm hrm hcm, is_mine_get_mark hwf hrb hcb, hfresh]
    simp [hnotin, Cell.fresh]
  have hbound : ∀ p ∈ sample, p.1 < rows ∧ p.2 < cols := by
    intro p hp
    have hx := mem_all_positions.mp (hmem p hp)
    refine ⟨?_, ?_⟩
    · rw [← hbrows]
      exact hx.1
    · rw [← hbcols]
      exact hx.2.1
  have hcount : count_mines { compute_adjacent_mine_counts (mark_mines b0 sample) with
      mines_placed := true } = m := by
    show count_mines (compute_adjacent_mine_counts (mark_mines b0 sample)) = m
    rw [count_mines_compute, hb0, count_mines_mark_fresh sample hnd hbound]
    exact hlen
  refine ⟨if all_safe_cells_opened (flood_fill_open
        { compute_adjacent_mine_counts (mark_mines b0 sample) with mines_placed := true }
        row.toNat col.toNat) = true
      then { flood_fill_open
          { compute_adjacent_mine_counts (mark_mines b0 sample) with mines_placed := true }
          row.toNat col.toNat with game_over := true, win := true }
      else flood_fill_open
          { compute_adjacent_mine_counts (mark_mines b0 sample) with mines_placed := true }
          row.toNat col.toNat, ?_, ?_, ?_, ?_⟩
  · rw [open_cell, if_neg (by simp [hin]), if_neg (by simp [hbgo])]
    simp only [hbmp, Bool.false_eq_true, if_false, hplace]
    rw [if_neg (by simp [hstate]), if_neg (by simp [hmine])]
    split <;> rfl
  · have hff := flood_loop_frame
      { compute_adjacent_mine_counts (mark_mines b0 sample) with mines_placed := true }
      [(row.toNat, col.toNat)]
    split
    · show count_mines (flood_fill_open _ row.toNat col.toNat) = m
      rw [flood_fill_open, hff.2.2.2.2.2.2.2.1]
      exact hcount
    · show count_mines (flood_fill_open _ row.toNat col.toNat) = m
      rw [flood_fill_open, hff.2.2.2.2.2.2.2.1]
      exact hcount
  · have hff := flood_loop_frame
      { compute_adjacent_mine_counts (mark_mines b0 sample) with mines_placed := true }
      [(row.toNat, col.toNat)]
    have hcols2 : (flood_fill_open
        { compute_adjacent_mine_counts (mark_mines b0 sample) with mines_placed := true }
        row.toNat col.toNat).cols
        = ({ compute_adjacent_mine_counts (mark_mines b0 sample) with
            mines_placed := true } : Board).cols := hff.2.1
    have hmine2 : (get_cell (flood_fill_open
        { compute_adjacent_mine_counts (mark_mines b0 sample) with mines_placed := true }
        row.toNat col.toNat) row.toNat col.toNat).is_mine = false := by
      rw [get_cell, hcols2]
      have hpw := (hff.2.2.2.2.2.2.2.2 (row.toNat *
        ({ compute_adjacent_mine_counts (mark_mines b0 sample) with
            mines_placed := true } : Board).cols + col.toNat)).1
      rw [flood_fill_open]
      rw [hpw]
      exact hmine
    split
    · exact hmine2
    · exact hmine2
  · have hff := flood_loop_frame
      { compute_adjacent_mine_counts (mark_mines b0 sample) with mines_placed := true }
      [(row.toNat, col.toNat)]
    split
    · intro hand
      cases hand.2
    · intro hand
      have hgo2 : (flood_fill_open
          { compute_adjacent_mine_counts (mark_mines b0 sample) with mines_placed := true }
          row.toNat col.toNat).game_over
          = ({ compute_adjacent_mine_counts (mark_mines b0 sample) with
              mines_placed := true } : Board).game_over := hff.2.2.2.2.1
      rw [hgo2] at hand
      have hgo3 : ({ compute_adjacent_mine_counts (mark_mines b0 sample) with
          mines_placed := true } : Board).game_over = false := by
        show (compute_adjacent_mine_counts (mark_mines b0 sample)).game_over = false
        rw [(compute_fields (mark_mines b0 sample)).2.2.2.2.1,
          (mark_mines_fields b0 sample).2.2.2.2.1]
        exact hbgo
      rw [hgo3] at hand
      cases hand.1

theorem C1_first_click_safety_witness :
    board_new 2 2 1 = Except.ok wb0 ∧ in_bounds wb0 0 0 = true ∧
    ([((1 : Nat), (1 : Nat))] : List (Nat × Nat)).Nodup ∧
    (∀ p ∈ [((1 : Nat), (1 : Nat))], p ∈ all_positions wb0 ((0 : Int).toNat, (0 : Int).toNat)) ∧
    ([((1 : Nat), (1 : Nat))] : List (Nat × Nat)).length = 1 ∧
    (∃ b1, open_cell [(1, 1)] wb0 0 0 = Except.ok b1 ∧
      count_mines b1 = 1 ∧
      (get_cell b1 (0 : Int).toNat (0 : Int).toNat).is_mine = false ∧
      ¬(b1.game_over = true ∧ b1.win = false)) :=
  ⟨rfl, by decide, by decide, by decide, by decide,
    C1_first_click_safety 2 2 1 0 0 wb0 [(1, 1)] rfl (by decide) (by decide)
      (by decide) (by decide)⟩

/-! ## Claim C2: flood-fill closure — reachability helpers -/

theorem reach_openable {b0 : Board} {s q : Nat × Nat} (hs : openable b0 s)
    (h : reach b0 s q) : openable b0 q := by
  induction h with
  | refl => exact hs
  | tail h1 h2 ih => exact h2.2.2.2

theorem region_endpoint_zero {b0 : Board} {s q : Nat × Nat} (hz : zero_cell b0 s)
    (h : zero_region b0 s q) : zero_cell b0 q := by
  induction h with
  | refl => exact hz
  | tail h1 h2 ih => exact h2.2.2

/-- The set described by the flood-fill claim coincides with reflexive-
transitive `zero_step` reachability. -/
theorem claimed_eq_reach {b0 : Board} {s : Nat × Nat} (hs : openable b0 s)
    (q : Nat × Nat) : claimed_reveal_set b0 s q ↔ reach b0 s q := by
  constructor
  · intro hcl
    rcases hcl with hqs | ⟨hadj, hreg | hbd⟩
    · rw [hqs]
      exact Relation.ReflTransGen.refl
    · exact Relation.ReflTransGen.mono
        (fun x y hxy => ⟨hxy.1.1, hxy.1.2, hxy.2.1, hxy.2.2.1⟩) hreg
    · obtain ⟨p, hreg, hnbr, hop, hne⟩ := hbd
      have hreachp : reach b0 s p := Relation.ReflTransGen.mono
        (fun x y hxy => ⟨hxy.1.1, hxy.1.2, hxy.2.1, hxy.2.2.1⟩) hreg
      have hzp : zero_cell b0 p := region_endpoint_zero ⟨hs, hadj⟩ hreg
      exact hreachp.tail ⟨hzp.1, hzp.2, hnbr, hop⟩
  · intro hre
    induction hre with
    | refl => exact Or.inl rfl
    | tail hsp hstep ih =>
      rename_i pm q'
      right
      rcases ih with hps | ⟨hadj, hreg | hbd⟩
      · rw [hps] at hstep
        refine ⟨hstep.2.1, ?_⟩
        by_cases hq0 : (get_cell b0 q'.1 q'.2).adjacent_mines = 0
        · exact Or.inl (Relation.ReflTransGen.single
            ⟨⟨hs, hstep.2.1⟩, hstep.2.2.1, ⟨hstep.2.2.2, hq0⟩⟩)
        · exact Or.inr ⟨s, Relation.ReflTransGen.refl, hstep.2.2.1, hstep.2.2.2, hq0⟩
      · refine ⟨hadj, ?_⟩
        have hzpm : zero_cell b0 pm := ⟨hstep.1, hstep.2.1⟩
        by_cases hq0 : (get_cell b0 q'.1 q'.2).adjacent_mines = 0
        · exact Or.inl (hreg.tail ⟨hzpm, hstep.2.2.1, ⟨hstep.2.2.2, hq0⟩⟩)
        · exact Or.inr ⟨pm, hreg, hstep.2.2.1, hstep.2.2.2, hq0⟩
      · obtain ⟨p, _, _, _, hne⟩ := hbd
        exact absurd hstep.2.1 hne

theorem neighbor_coords_congr {b b0 : Board} (h1 : b.rows = b0.rows)
    (h2 : b.cols = b0.cols) (r c : Nat) :
    neighbor_coords b r c = neighbor_coords b0 r c := by
  simp only [neighbor_coords, h1, h2]

theorem mem_flood_push {b1 : Board} {r c : Nat} {q : Nat × Nat} :
    q ∈ flood_push b1 r c ↔ q ∈ neighbor_coords b1 r c ∧
      ¬((get_cell b1 q.1 q.2).state = CellState.opened) ∧
      ¬((get_cell b1 q.1 q.2).state = CellState.flagged) ∧
      (get_cell b1 q.1 q.2).is_mine = false := by
  rw [flood_push, List.mem_reverse, List.mem_filter]
  simp [and_assoc]

theorem state_unopened_of_not {x : Cell}
    (h : ¬(x.state = CellState.opened ∨ x.state = CellState.flagged ∨ x.is_mine = true)) :
    x.state = CellState.unopened ∧ x.is_mine = false := by
  push_neg at h
  obtain ⟨h1, h2, h3⟩ := h
  refine ⟨?_, by simpa using h3⟩
  cases hx : x.state with
  | unopened => rfl
  | opened => exact absurd hx h1
  | flagged => exact absurd hx h2

theorem chain_start_ne {b0 : Board} {O : (Nat × Nat) → Prop} {p u q : Nat × Nat}
    (h : Relation.ReflTransGen
      (fun x y => zero_step b0 x y ∧ ¬(O x ∨ x = p) ∧ ¬(O y ∨ y = p)) u q)
    (hq : q ≠ p) : u ≠ p := by
  cases h.cases_head with
  | inl he => rw [he]; exact hq
  | inr hex =>
    obtain ⟨d, hstep, _⟩ := hex
    intro hup
    exact hstep.2.1 (Or.inr hup)

/-- Splitting an `O`-avoiding chain at the last visit to `p`: either the chain
already avoids `p`, or its suffix after the last visit starts with a
`zero_step` out of `p`. -/
theorem chain_upgrade {b0 : Board} {O : (Nat × Nat) → Prop} {p : Nat × Nat}
    {t q : Nat × Nat}
    (hchain : Relation.ReflTransGen (fun x y => zero_step b0 x y ∧ ¬ O x ∧ ¬ O y) t q)
    (hq : q ≠ p) :
    Relation.ReflTransGen
      (fun x y => zero_step b0 x y ∧ ¬(O x ∨ x = p) ∧ ¬(O y ∨ y = p)) t q
    ∨ ∃ w, zero_step b0 p w ∧ ¬ O w ∧
        Relation.ReflTransGen
          (fun x y => zero_step b0 x y ∧ ¬(O x ∨ x = p) ∧ ¬(O y ∨ y = p)) w q := by
  induction hchain using Relation.ReflTransGen.head_induction_on with
  | refl => exact Or.inl Relation.ReflTransGen.refl
  | head hstep hch ih =>
    rename_i t' u
    rcases ih with hleft | hright
    · by_cases htp : t' = p
      · rw [htp] at hstep
        exact Or.inr ⟨u, hstep.1, hstep.2.2, hleft⟩
      · have hune : u ≠ p := chain_start_ne hleft hq
        refine Or.inl (hleft.head ⟨hstep.1, ?_, ?_⟩)
        · rintro (hx | hx)
          · exact hstep.2.1 hx
          · exact htp hx
        · rintro (hx | hx)
          · exact hstep.2.2 hx
          · exact hune hx
    · exact Or.inr hright

/-- Master lemma: running the flood loop from a state that has already opened
the set `O ⊆ reach` and whose stack covers the rest of the reachable set
opens exactly the `zero_step`-reachable cells. -/
theorem flood_loop_reach (b0 : Board) (hwf : b0.WF) (s : Nat × Nat)
    (hs : openable b0 s) (b : Board) (stack : List (Nat × Nat)) :
    ∀ O : (Nat × Nat) → Prop,
    (∀ p, O p → openable b0 p) →
    (∀ p, inb b0 p → O p → get_cell b p.1 p.2 = opened_copy (get_cell b0 p.1 p.2)) →
    (∀ p, inb b0 p → ¬ O p → get_cell b p.1 p.2 = get_cell b0 p.1 p.2) →
    b.rows = b0.rows → b.cols = b0.cols → b.grid.length = b0.grid.length →
    (∀ p, O p → reach b0 s p) →
    (∀ p ∈ stack, inb b0 p ∧ (openable b0 p → reach b0 s p)) →
    (∀ q, reach b0 s q → ¬ O q → ∃ t ∈ stack,
      Relation.ReflTransGen (fun x y => zero_step b0 x y ∧ ¬ O x ∧ ¬ O y) t q) →
    ∃ Of : (Nat × Nat) → Prop,
      (∀ p, inb b0 p → Of p →
        get_cell (flood_loop b stack) p.1 p.2 = opened_copy (get_cell b0 p.1 p.2)) ∧
      (∀ p, inb b0 p → ¬ Of p →
        get_cell (flood_loop b stack) p.1 p.2 = get_cell b0 p.1 p.2) ∧
      (∀ q, Of q ↔ reach b0 s q) := by
  induction b, stack using flood_loop.induct with
  | case1 b =>
    intro O hOop hOeq hOsame hrows hcols hlen hOreach hstack hcompl
    rw [flood_loop_nil]
    refine ⟨O, hOeq, hOsame, fun q => ⟨hOreach q, fun hre => ?_⟩⟩
    by_contra hnq
    obtain ⟨t, ht, _⟩ := hcompl q hre hnq
    cases ht
  | case2 b r c rest h hskip ih =>
    intro O hOop hOeq hOsame hrows hcols hlen hOreach hstack hcompl
    rw [flood_loop_skip rest h hskip]
    refine ih O hOop hOeq hOsame hrows hcols hlen hOreach
      (fun p hp => hstack p (List.mem_cons_of_mem _ hp)) ?_
    intro q hre hnq
    obtain ⟨t, ht, hchain⟩ := hcompl q hre hnq
    rcases List.mem_cons.mp ht with hteq | htrest
    · exfalso
      subst hteq
      have hinb : inb b0 (r, c) := (hstack (r, c) (List.mem_cons_self _ _)).1
      have hopnO : openable b0 (r, c) ∧ ¬ O (r, c) := by
        cases hchain.cases_head with
        | inl he =>
          exact ⟨he ▸ reach_openable hs hre, he ▸ hnq⟩
        | inr hex =>
          obtain ⟨d, hstep, _⟩ := hex
          exact ⟨hstep.1.1, hstep.2.1⟩
      have hcell : get_cell b r c = get_cell b0 r c := hOsame (r, c) hinb hopnO.2
      rw [hcell] at hskip
      rcases hskip with hx | hx | hx
      · rw [hopnO.1.2.1] at hx
        cases hx
      · rw [hopnO.1.2.1] at hx
        cases hx
      · rw [hopnO.1.2.2] at hx
        cases hx
    · exact ⟨t, htrest, hchain⟩
  | case3 b r c rest h hskip ih =>
    intro O hOop hOeq hOsame hrows hcols hlen hOreach hstack hcompl
    rw [flood_loop_step rest h hskip]
    have hinb : inb b0 (r, c) := (hstack (r, c) (List.mem_cons_self _ _)).1
    have hbwf : b.WF := by rw [Board.WF, hlen, hwf, hrows, hcols]
    have hrb : r < b.rows := by
      rw [hrows]
      exact hinb.1
    have hcb : c < b.cols := by
      rw [hcols]
      exact hinb.2
    have hnO : ¬ O (r, c) := by
      intro hO
      apply hskip
      left
      rw [hOeq (r, c) hinb hO]
      rfl
    have hcell : get_cell b r c = get_cell b0 r c := hOsame (r, c) hinb hnO
    have hsu := state_unopened_of_not hskip
    have hopen0 : openable b0 (r, c) := by
      refine ⟨hinb, ?_, ?_⟩
      · rw [← hcell]
        exact hsu.1
      · rw [← hcell]
        exact hsu.2
    have hreachp : reach b0 s (r, c) := (hstack (r, c) (List.mem_cons_self _ _)).2 hopen0
    have hb1rows : (set_cell b r c (opened_copy (get_cell b r c))).rows = b0.rows := by
      rw [set_cell_rows]
      exact hrows
    have hb1cols : (set_cell b r c (opened_copy (get_cell b r c))).cols = b0.cols := by
      rw [set_cell_cols]
      exact hcols
    have hb1len : (set_cell b r c (opened_copy (get_cell b r c))).grid.length
        = b0.grid.length := by
      rw [set_cell_grid_length]
      exact hlen
    have hb1at : get_cell (set_cell b r c (opened_copy (get_cell b r c))) r c
        = opened_copy (get_cell b0 r c) := by
      rw [get_cell_set_same hbwf hrb hcb, hcell]
    have hb1other : ∀ q : Nat × Nat, inb b0 q → q ≠ (r, c) →
        get_cell (set_cell b r c (opened_copy (get_cell b r c))) q.1 q.2
          = get_cell b q.1 q.2 := by
      intro q hq hne
      refine get_cell_set_ne hcb ?_ ?_ _
      · rw [hcols]
        exact hq.2
      · intro he
        apply hne
        have h1 := congrArg Prod.fst he
        have h2 := congrArg Prod.snd he
        exact Prod.ext h1 h2
    have inv_op : ∀ p, (O p ∨ p = (r, c)) → openable b0 p := by
      rintro p (hp | hp)
      · exact hOop p hp
      · rw [hp]
        exact hopen0
    have inv_eq : ∀ p, inb b0 p → (O p ∨ p = (r, c)) →
        get_cell (set_cell b r c (opened_copy (get_cell b r c))) p.1 p.2
          = opened_copy (get_cell b0 p.1 p.2) := by
      rintro p hpin (hp | hp)
      · by_cases hpe : p = (r, c)
        · rw [hpe]
          exact hb1at
        · rw [hb1other p hpin hpe]
          exact hOeq p hpin hp
      · rw [hp]
        exact hb1at
    have inv_same : ∀ p, inb b0 p → ¬(O p ∨ p = (r, c)) →
        get_cell (set_cell b r c (opened_copy (get_cell b r c))) p.1 p.2
          = get_cell b0 p.1 p.2 := by
      intro p hpin hp
      push_neg at hp
      rw [hb1other p hpin hp.2]
      exact hOsame p hpin hp.1
    have inv_reach : ∀ p, (O p ∨ p = (r, c)) → reach b0 s p := by
      rintro p (hp | hp)
      · exact hOreach p hp
      · rw [hp]
        exact hreachp
    have inv_stack : ∀ p ∈ ((if (get_cell b r c).adjacent_mines = 0 then
          flood_push (set_cell b r c (opened_copy (get_cell b r c))) r c
        else []) ++ rest),
        inb b0 p ∧ (openable b0 p → reach b0 s p) := by
      intro p hp
      rcases List.mem_append.mp hp with hpu | hpr
      · by_cases hz : (get_cell b r c).adjacent_mines = 0
        · rw [if_pos hz] at hpu
          have hmem := (mem_flood_push.mp hpu).1
          rw [neighbor_coords_congr hb1rows hb1cols r c] at hmem
          have hinbp : inb b0 p := mem_neighbor_coords_inb hmem
          refine ⟨hinbp, fun hop => ?_⟩
          have hz0 : (get_cell b0 r c).adjacent_mines = 0 := by
            rw [← hcell]
            exact hz
          exact hreachp.tail ⟨hopen0, hz0, hmem, hop⟩
        · rw [if_neg hz] at hpu
          cases hpu
      · exact hstack p (List.mem_cons_of_mem _ hpr)
    have inv_compl : ∀ q, reach b0 s q → ¬(O q ∨ q = (r, c)) →
        ∃ t ∈ ((if (get_cell b r c).adjacent_mines = 0 then
            flood_push (set_cell b r c (opened_copy (get_cell b r c))) r c
          else []) ++ rest),
          Relation.ReflTransGen
            (fun x y => zero_step b0 x y ∧ ¬(O x ∨ x = (r, c)) ∧ ¬(O y ∨ y = (r, c))) t q := by
      intro q hre hq
      push_neg at hq
      obtain ⟨hqO, hqne⟩ := hq
      obtain ⟨t, ht, hchain⟩ := hcompl q hre hqO
      rcases chain_upgrade hchain hqne with hl | hr2
      · rcases List.mem_cons.mp ht with hteq | htrest
        · exfalso
          subst hteq
          exact chain_start_ne hl hqne rfl
        · exact ⟨t, List.mem_append.mpr (Or.inr htrest), hl⟩
      · obtain ⟨w, hzs, hOw, hchain'⟩ := hr2
        have hz : (get_cell b r c).adjacent_mines = 0 := by
          rw [hcell]
          exact hzs.2.1
        have hwnbr0 : w ∈ neighbor_coords b0 r c := hzs.2.2.1
        have hwinb : inb b0 w := mem_neighbor_coords_inb hwnbr0
        have hwne : w ≠ (r, c) := mem_neighbor_coords_ne hwnbr0
        have hwop : openable b0 w := hzs.2.2.2
        have hwcell : get_cell (set_cell b r c (opened_copy (get_cell b r c))) w.1 w.2
            = get_cell b0 w.1 w.2 := by
          rw [hb1other w hwinb hwne]
          exact hOsame w hwinb hOw
        have hwmem : w ∈ flood_push (set_cell b r c (opened_copy (get_cell b r c))) r c := by
          rw [mem_flood_push]
          refine ⟨?_, ?_, ?_, ?_⟩
          · rw [neighbor_coords_congr hb1rows hb1cols r c]
            exact hwnbr0
          · rw [hwcell, hwop.2.1]
            simp
          · rw [hwcell, hwop.2.1]
            simp
          · rw [hwcell]
            exact hwop.2.2
        refine ⟨w, List.mem_append.mpr (Or.inl ?_), hchain'⟩
        rw [if_pos hz]
        exact hwmem
    exact ih (fun x => O x ∨ x = (r, c)) inv_op inv_eq inv_same hb1rows hb1cols hb1len
      inv_reach inv_stack inv_compl
  | case4 b r c rest h ih =>
    intro O hOop hOeq hOsame hrows hcols hlen hOreach hstack hcompl
    exfalso
    have hinb : inb b0 (r, c) := (hstack (r, c) (List.mem_cons_self _ _)).1
    apply h
    rw [hcols, hlen, hwf]
    exact idx_lt_mul hinb.1 hinb.2

/-- C2 counterexample: the claim quantifies over every board state after mine
placement, but when `game_over` is already true, `open_cell` on a Hidden,
unflagged, non-mine cell reveals nothing at all, while the claimed reveal
set contains the clicked cell. -/
theorem C2_flood_fill_cex :
    bC2cex.mines_placed = true ∧ in_bounds bC2cex 0 0 = true ∧
    (get_cell bC2cex 0 0).state = CellState.unopened ∧
    (get_cell bC2cex 0 0).is_mine = false ∧
    open_cell [] bC2cex 0 0 = Except.ok bC2cex ∧
    claimed_reveal_set bC2cex (0, 0) (0, 0) ∧
    ¬((get_cell bC2cex 0 0).state = CellState.opened) :=
  ⟨by decide, by decide, by decide, by decide, rfl, Or.inl rfl, by decide⟩

/-- C2 (amended with `game_over = false`): on any well-formed board after
mine placement with the game still in progress, `open_cell` on a Hidden,
unflagged, non-mine cell succeeds (the loop is total, so it terminates), the
set of cells it newly marks Revealed is exactly the clicked cell together
with — when the clicked cell has zero adjacency — the maximal connected
region of Hidden zero-adjacency non-mine cells reachable from it plus that
region's immediate numbered boundary, and that set contains no mine and no
Flagged cell. -/
theorem C2_flood_fill_closure (b : Board) (sample : List (Nat × Nat)) (row col : Int)
    (hwf : b.WF) (hgo : b.game_over = false) (hmp : b.mines_placed = true)
    (hin : in_bounds b row col = true)
    (hhid : (get_cell b row.toNat col.toNat).state = CellState.unopened)
    (hnm : (get_cell b row.toNat col.toNat).is_mine = false) :
    ∃ b', open_cell sample b row col = Except.ok b' ∧
      (∀ q, inb b q →
        (((get_cell b' q.1 q.2).state = CellState.opened ∧
          ¬((get_cell b q.1 q.2).state = CellState.opened))
          ↔ claimed_reveal_set b (row.toNat, col.toNat) q)) ∧
      (∀ q, claimed_reveal_set b (row.toNat, col.toNat) q →
        (get_cell b q.1 q.2).is_mine = false ∧
        ¬((get_cell b q.1 q.2).state = CellState.flagged)) := by
  have hin' := in_bounds_iff.mp hin
  have hr : row.toNat < b.rows := by omega
  have hc : col.toNat < b.cols := by omega
  have hsopen : openable b (row.toNat, col.toNat) := ⟨⟨hr, hc⟩, hhid, hnm⟩
  refine ⟨if all_safe_cells_opened (flood_fill_open b row.toNat col.toNat) = true
      then { flood_fill_open b row.toNat col.toNat with game_over := true, win := true }
      else flood_fill_open b row.toNat col.toNat, ?_, ?_, ?_⟩
  · rw [open_cell, if_neg (by simp [hin]), if_neg (by simp [hgo])]
    simp only [hmp, eq_self_iff_true, if_true]
    rw [if_neg (by simp [hhid]), if_neg (by simp [hnm])]
    split <;> rfl
  · have hstackinv : ∀ p ∈ [(row.toNat, col.toNat)],
        inb b p ∧ (openable b p → reach b (row.toNat, col.toNat) p) := by
      intro p hp
      rw [List.mem_singleton] at hp
      subst hp
      exact ⟨⟨hr, hc⟩, fun _ => Relation.ReflTransGen.refl⟩
    have hcomplinv : ∀ q, reach b (row.toNat, col.toNat) q → ¬ False →
        ∃ t ∈ [(row.toNat, col.toNat)],
          Relation.ReflTransGen
            (fun x y => zero_step b x y ∧ ¬ False ∧ ¬ False) t q := by
      intro q hre _
      refine ⟨(row.toNat, col.toNat), List.mem_singleton_self _, ?_⟩
      exact Relation.ReflTransGen.mono (fun x y hxy => ⟨hxy, not_false, not_false⟩) hre
    obtain ⟨Of, hOfeq, hOfsame, hOfiff⟩ :=
      flood_loop_reach b hwf (row.toNat, col.toNat) hsopen b [(row.toNat, col.toNat)]
        (fun _ => False)
        (fun p hp => hp.elim)
        (fun p _ hp => hp.elim)
        (fun p _ _ => rfl)
        rfl rfl rfl
        (fun p hp => hp.elim)
        hstackinv
        hcomplinv
    intro q hq
    have hb'get : get_cell (if all_safe_cells_opened
          (flood_fill_open b row.toNat col.toNat) = true
        then { flood_fill_open b row.toNat col.toNat with game_over := true, win := true }
        else flood_fill_open b row.toNat col.toNat) q.1 q.2
        = get_cell (flood_loop b [(row.toNat, col.toNat)]) q.1 q.2 := by
      split <;> rfl
    rw [hb'get, claimed_eq_reach hsopen q]
    constructor
    · rintro ⟨hopened, hnotopened⟩
      by_contra hnre
      rw [hOfsame q hq (fun hOf => hnre ((hOfiff q).mp hOf))] at hopened
      exact hnotopened hopened
    · intro hre
      have hOf : Of q := (hOfiff q).mpr hre
      have hqopenable : openable b q := reach_openable hsopen hre
      constructor
      · rw [hOfeq q hq hOf]
        rfl
      · rw [hqopenable.2.1]
        simp
  · intro q hcl
    have hre := (claimed_eq_reach hsopen q).mp hcl
    have hqop := reach_openable hsopen hre
    refine ⟨hqop.2.2, ?_⟩
    rw [hqop.2.1]
    simp

theorem C2_flood_fill_closure_witness :
    bC2wit.WF ∧ bC2wit.game_over = false ∧ bC2wit.mines_placed = true ∧
    in_bounds bC2wit 0 0 = true ∧
    (get_cell bC2wit (0 : Int).toNat (0 : Int).toNat).state = CellState.unopened ∧
    (get_cell bC2wit (0 : Int).toNat (0 : Int).toNat).is_mine = false ∧
    (∃ b', open_cell [] bC2wit 0 0 = Except.ok b' ∧
      (∀ q, inb bC2wit q →
        (((get_cell b' q.1 q.2).state = CellState.opened ∧
          ¬((get_cell bC2wit q.1 q.2).state = CellState.opened))
          ↔ claimed_reveal_set bC2wit ((0 : Int).toNat, (0 : Int).toNat) q)) ∧
      (∀ q, claimed_reveal_set bC2wit ((0 : Int).toNat, (0 : Int).toNat) q →
        (get_cell bC2wit q.1 q.2).is_mine = false ∧
        ¬((get_cell bC2wit q.1 q.2).state = CellState.flagged))) :=
  ⟨by rfl, by rfl, by rfl, by decide, by decide, by decide,
    C2_flood_fill_closure bC2wit [] 0 0 (by rfl) (by rfl) (by rfl) (by decide)
      (by decide) (by decide)⟩

/-! ## Claim C3: basic deterministic deduction -/

theorem insert_coord_perm (p : Nat × Nat) (l : List (Nat × Nat)) :
    (insert_coord p l).Perm (p :: l) := by
  induction l with
  | nil => exact List.Perm.refl _
  | cons q t ih =>
    rw [insert_coord]
    by_cases hle : coord_le p q = true
    · rw [if_pos hle]
    · rw [if_neg hle]
      exact (ih.cons q).trans (List.Perm.swap p q t)

theorem sort_coords_perm (l : List (Nat × Nat)) : (sort_coords l).Perm l := by
  induction l with
  | nil => exact List.Perm.refl _
  | cons p t ih =>
    show (insert_coord p (sort_coords t)).Perm (p :: t)
    exact (insert_coord_perm p (sort_coords t)).trans (ih.cons p)

theorem mem_sort_dedup {l : List (Nat × Nat)} {p : Nat × Nat} :
    p ∈ sort_coords l.dedup ↔ p ∈ l := by
  rw [(sort_coords_perm l.dedup).mem_iff, List.mem_dedup]

theorem nodup_sort_dedup (l : List (Nat × Nat)) : (sort_coords l.dedup).Nodup :=
  ((sort_coords_perm l.dedup).nodup_iff).mpr (List.nodup_dedup l)

theorem filterMap_const_none {α β : Type} (l : List α) :
    l.filterMap (fun _ => (none : Option β)) = [] := by
  induction l with
  | nil => rfl
  | cons a t ih => rw [List.filterMap_cons]; exact ih

theorem open_coords_basic (b : Board) :
    open_coords (basic_logical_moves b)
      = sort_coords ((build_constraints b).flatMap basic_contrib_open).dedup := by
  rw [basic_logical_moves, open_coords, List.filterMap_append]
  have h1 : (List.map (fun p : Nat × Nat =>
        ({ action := ActionKind.openA, row := p.1, col := p.2 } : Move))
        (sort_coords ((build_constraints b).flatMap basic_contrib_open).dedup)).filterMap
        (fun m => if m.action = ActionKind.openA then some (m.row, m.col) else none)
      = sort_coords ((build_constraints b).flatMap basic_contrib_open).dedup := by
    rw [List.filterMap_map]
    have he : ∀ l : List (Nat × Nat), l.filterMap
        ((fun m : Move => if m.action = ActionKind.openA then some (m.row, m.col) else none)
          ∘ (fun p : Nat × Nat =>
            ({ action := ActionKind.openA, row := p.1, col := p.2 } : Move))) = l := by
      intro l
      induction l with
      | nil => rfl
      | cons a t ih =>
        rw [List.filterMap_cons]
        have hfa : ((fun m : Move =>
            if m.action = ActionKind.openA then some (m.row, m.col) else none)
          ∘ (fun p : Nat × Nat =>
            ({ action := ActionKind.openA, row := p.1, col := p.2 } : Move))) a
            = some a := rfl
        simp only [hfa, ih]
    exact he _
  have h2 : (List.map (fun p : Nat × Nat =>
        ({ action := ActionKind.flagA, row := p.1, col := p.2 } : Move))
        (sort_coords ((build_constraints b).flatMap basic_contrib_flag).dedup)).filterMap
        (fun m => if m.action = ActionKind.openA then some (m.row, m.col) else none)
      = [] := by
    rw [List.filterMap_map]
    have he : ∀ l : List (Nat × Nat), l.filterMap
        ((fun m : Move => if m.action = ActionKind.openA then some (m.row, m.col) else none)
          ∘ (fun p : Nat × Nat =>
            ({ action := ActionKind.flagA, row := p.1, col := p.2 } : Move))) = [] := by
      intro l
      induction l with
      | nil => rfl
      | cons a t ih =>
        rw [List.filterMap_cons]
        simp only [Function.comp_apply]
        rw [if_neg (by decide)]
        exact ih
    exact he _
  rw [h1, h2, List.append_nil]

theorem flag_coords_basic (b : Board) :
    flag_coords (basic_logical_moves b)
      = sort_coords ((build_constraints b).flatMap basic_contrib_flag).dedup := by
  rw [basic_logical_moves, flag_coords, List.filterMap_append]
  have h1 : (List.map (fun p : Nat × Nat =>
        ({ action := ActionKind.openA, row := p.1, col := p.2 } : Move))
        (sort_coords ((build_constraints b).flatMap basic_contrib_open).dedup)).filterMap
        (fun m => if m.action = ActionKind.flagA then some (m.row, m.col) else none)
      = [] := by
    rw [List.filterMap_map]
    have he : ∀ l : List (Nat × Nat), l.filterMap
        ((fun m : Move => if m.action = ActionKind.flagA then some (m.row, m.col) else none)
          ∘ (fun p : Nat × Nat =>
            ({ action := ActionKind.openA, row := p.1, col := p.2 } : Move))) = [] := by
      intro l
      induction l with
      | nil => rfl
      | cons a t ih =>
        rw [List.filterMap_cons]
        simp only [Function.comp_apply]
        rw [if_neg (by decide)]
        exact ih
    exact he _
  have h2 : (List.map (fun p : Nat × Nat =>
        ({ action := ActionKind.flagA, row := p.1, col := p.2 } : Move))
        (sort_coords ((build_constraints b).flatMap basic_contrib_flag).dedup)).filterMap
        (fun m => if m.action = ActionKind.flagA then some (m.row, m.col) else none)
      = sort_coords ((build_constraints b).flatMap basic_contrib_flag).dedup := by
    rw [List.filterMap_map]
    have he : ∀ l : List (Nat × Nat), l.filterMap
        ((fun m : Move => if m.action = ActionKind.flagA then some (m.row, m.col) else none)
          ∘ (fun p : Nat × Nat =>
            ({ action := ActionKind.flagA, row := p.1, col := p.2 } : Move))) = l := by
      intro l
      induction l with
      | nil => rfl
      | cons a t ih =>
        rw [List.filterMap_cons]
        have hfa : ((fun m : Move =>
            if m.action = ActionKind.flagA then some (m.row, m.col) else none)
          ∘ (fun p : Nat × Nat =>
            ({ action := ActionKind.flagA, row := p.1, col := p.2 } : Move))) a
            = some a := rfl
        simp only [hfa, ih]
    exact he _
  rw [h1, h2, List.nil_append]

theorem mem_basic_contrib_open {con : Constraint} {p : Nat × Nat} :
    p ∈ basic_contrib_open con ↔ con.remaining = 0 ∧ p ∈ con.unknown := by
  rw [basic_contrib_open]
  by_cases h1 : con.remaining < 0 ∨ con.remaining > (con.unknown.length : Int)
  · rw [if_pos h1]
    constructor
    · intro hx
      cases hx
    · rintro ⟨hrem, _⟩
      exfalso
      rw [hrem] at h1
      have : (0 : Int) ≤ (con.unknown.length : Int) := Int.ofNat_nonneg _
      omega
  · rw [if_neg h1]
    by_cases h2 : con.remaining = 0
    · rw [if_pos h2]
      exact ⟨fun hx => ⟨h2, hx⟩, fun hx => hx.2⟩
    · rw [if_neg h2]
      constructor
      · intro hx
        cases hx
      · rintro ⟨hrem, _⟩
        exact absurd hrem h2

theorem mem_basic_contrib_flag {con : Constraint} {p : Nat × Nat} :
    p ∈ basic_contrib_flag con ↔
      con.remaining = (con.unknown.length : Int) ∧ p ∈ con.unknown := by
  rw [basic_contrib_flag]
  by_cases h1 : con.remaining < 0 ∨ con.remaining > (con.unknown.length : Int)
  · rw [if_pos h1]
    constructor
    · intro hx
      cases hx
    · rintro ⟨hrem, _⟩
      exfalso
      rw [hrem] at h1
      omega
  · rw [if_neg h1]
    by_cases h2 : con.remaining = 0
    · rw [if_pos h2]
      constructor
      · intro hx
        cases hx
      · rintro ⟨hrem, hmem⟩
        have hpos : 0 < con.unknown.length := List.length_pos.mpr (List.ne_nil_of_mem hmem)
        rw [h2] at hrem
        omega
    · rw [if_neg h2]
      by_cases h3 : con.remaining = (con.unknown.length : Int)
      · rw [if_pos h3]
        exact ⟨fun hx => ⟨h3, hx⟩, fun hx => hx.2⟩
      · rw [if_neg h3]
        constructor
        · intro hx
          cases hx
        · rintro ⟨hrem, _⟩
          exact absurd hrem h3

/-- C3: `basic_logical_moves` emits an Open move exactly for the unknown
neighbors of a constraint with `remaining = clue - flagged = 0`, a Flag move
exactly for the unknown neighbors of a constraint with
`remaining = |unknown|` (inconsistent constraints contribute nothing), each
coordinate at most once per action kind. The embedding is a pure function
of the board, matching "does not modify the board". -/
theorem C3_basic_deduction (b : Board) :
    (∀ r c, ({ action := ActionKind.openA, row := r, col := c } : Move)
        ∈ basic_logical_moves b ↔
      ∃ con ∈ build_constraints b, con.remaining = 0 ∧ (r, c) ∈ con.unknown) ∧
    (∀ r c, ({ action := ActionKind.flagA, row := r, col := c } : Move)
        ∈ basic_logical_moves b ↔
      ∃ con ∈ build_constraints b,
        con.remaining = (con.unknown.length : Int) ∧ (r, c) ∈ con.unknown) ∧
    (open_coords (basic_logical_moves b)).Nodup ∧
    (flag_coords (basic_logical_moves b)).Nodup := by
  refine ⟨fun r c => ?_, fun r c => ?_, ?_, ?_⟩
  · constructor
    · intro hmem
      have hco : (r, c) ∈ open_coords (basic_logical_moves b) := by
        rw [open_coords, List.mem_filterMap]
        exact ⟨_, hmem, by rw [if_pos rfl]⟩
      rw [open_coords_basic, mem_sort_dedup, List.mem_flatMap] at hco
      obtain ⟨con, hcon, hpc⟩ := hco
      exact ⟨con, hcon, (mem_basic_contrib_open.mp hpc).1, (mem_basic_contrib_open.mp hpc).2⟩
    · rintro ⟨con, hcon, hrem, hmem⟩
      rw [basic_logical_moves]
      apply List.mem_append.mpr
      left
      apply List.mem_map.mpr
      refine ⟨(r, c), ?_, rfl⟩
      rw [mem_sort_dedup, List.mem_flatMap]
      exact ⟨con, hcon, mem_basic_contrib_open.mpr ⟨hrem, hmem⟩⟩
  · constructor
    · intro hmem
      have hco : (r, c) ∈ flag_coords (basic_logical_moves b) := by
        rw [flag_coords, List.mem_filterMap]
        exact ⟨_, hmem, by rw [if_pos rfl]⟩
      rw [flag_coords_basic, mem_sort_dedup, List.mem_flatMap] at hco
      obtain ⟨con, hcon, hpc⟩ := hco
      exact ⟨con, hcon, (mem_basic_contrib_flag.mp hpc).1, (mem_basic_contrib_flag.mp hpc).2⟩
    · rintro ⟨con, hcon, hrem, hmem⟩
      rw [basic_logical_moves]
      apply List.mem_append.mpr
      right
      apply List.mem_map.mpr
      refine ⟨(r, c), ?_, rfl⟩
      rw [mem_sort_dedup, List.mem_flatMap]
      exact ⟨con, hcon, mem_basic_contrib_flag.mpr ⟨hrem, hmem⟩⟩
  · rw [open_coords_basic]
    exact nodup_sort_dedup _
  · rw [flag_coords_basic]
    exact nodup_sort_dedup _

/-! ## Claim C4: subset elimination and pass ordering -/

theorem build_constraints_unknown_ne_nil {b : Board} {con : Constraint}
    (h : con ∈ build_constraints b) : con.unknown ≠ [] := by
  rw [build_constraints, List.mem_filterMap] at h
  obtain ⟨i, _, hi⟩ := h
  by_cases h1 : (b.grid.getD i Cell.fresh).state = CellState.opened ∧
      (b.grid.getD i Cell.fresh).is_mine = false ∧
      (b.grid.getD i Cell.fresh).adjacent_mines ≠ 0
  · rw [if_pos h1] at hi
    by_cases h2 : unknown_neighbor_coords b (i / b.cols) (i % b.cols) = []
    · rw [if_pos h2] at hi
      cases hi
    · rw [if_neg h2] at hi
      have := Option.some.inj hi
      rw [← this]
      exact h2
  · rw [if_neg h1] at hi
    cases hi

theorem mem_processed {cons : List Constraint} {A : Constraint} (hA : A ∈ cons)
    (hne : A.unknown ≠ []) (h0 : 0 ≤ A.remaining)
    (h1 : A.remaining ≤ (A.unknown.dedup.length : Int)) :
    (A, A.unknown.dedup, A.remaining) ∈ processed_constraints cons := by
  rw [processed_constraints, List.mem_filterMap]
  refine ⟨A, hA, ?_⟩
  rw [if_neg (fun hx => hne ((List.dedup_eq_nil _).mp hx)), if_neg (by omega)]

theorem mem_pair_contrib_open {eA eB : Constraint × List (Nat × Nat) × Int}
    {p : Nat × Nat}
    (hsub : eA.2.1.all (fun x => decide (x ∈ eB.2.1)) = true)
    (hdne : eB.2.1.filter (fun x => !(decide (x ∈ eA.2.1))) ≠ [])
    (hd0 : eB.2.2 - eA.2.2 = 0)
    (hp : p ∈ eB.2.1.filter (fun x => !(decide (x ∈ eA.2.1)))) :
    p ∈ pair_contrib_open eA eB := by
  rw [pair_contrib_open]
  rw [if_neg (by rw [hsub]; intro hx; cases hx)]
  rw [if_neg hdne]
  have hlen : (0 : Int) ≤ ((eB.2.1.filter (fun x => !(decide (x ∈ eA.2.1)))).length : Int) :=
    Int.ofNat_nonneg _
  rw [if_neg (by omega), if_pos hd0]
  exact hp

theorem mem_pair_contrib_flag {eA eB : Constraint × List (Nat × Nat) × Int}
    {p : Nat × Nat}
    (hsub : eA.2.1.all (fun x => decide (x ∈ eB.2.1)) = true)
    (hdne : eB.2.1.filter (fun x => !(decide (x ∈ eA.2.1))) ≠ [])
    (hdl : eB.2.2 - eA.2.2
      = ((eB.2.1.filter (fun x => !(decide (x ∈ eA.2.1)))).length : Int))
    (hp : p ∈ eB.2.1.filter (fun x => !(decide (x ∈ eA.2.1)))) :
    p ∈ pair_contrib_flag eA eB := by
  rw [pair_contrib_flag]
  rw [if_neg (by rw [hsub]; intro hx; cases hx)]
  rw [if_neg hdne]
  have hpos : 0 < (eB.2.1.filter (fun x => !(decide (x ∈ eA.2.1)))).length :=
    List.length_pos.mpr hdne
  rw [if_neg (by omega), if_neg (by omega), if_pos hdl]
  exact hp

/-- C4: `next_moves` returns the basic-rule moves whenever that pass finds
anything and only otherwise runs subset elimination; in that pass, every
ordered pair of consistent constraints `A ⊆ B` with non-empty difference and
`0 ≤ δ ≤ |diff|` emits all of `diff` as Open moves when `δ = 0` and as Flag
moves when `δ = |diff|`. -/
theorem C4_subset_elimination (b : Board) :
    (basic_logical_moves b ≠ [] → csp_next_moves b = basic_logical_moves b) ∧
    (basic_logical_moves b = [] →
      csp_next_moves b = subset_reasoning (build_constraints b)) ∧
    (∀ A B : Constraint, A ∈ build_constraints b → B ∈ build_constraints b →
      0 ≤ A.remaining → A.remaining ≤ (A.unknown.dedup.length : Int) →
      0 ≤ B.remaining → B.remaining ≤ (B.unknown.dedup.length : Int) →
      (A.unknown.dedup.all (fun x => decide (x ∈ B.unknown.dedup)) = true) →
      B.unknown.dedup.filter (fun x => !(decide (x ∈ A.unknown.dedup))) ≠ [] →
      0 ≤ B.remaining - A.remaining →
      B.remaining - A.remaining
        ≤ ((B.unknown.dedup.filter (fun x => !(decide (x ∈ A.unknown.dedup)))).length : Int) →
      ((B.remaining - A.remaining = 0 →
        ∀ p ∈ B.unknown.dedup.filter (fun x => !(decide (x ∈ A.unknown.dedup))),
          ({ action := ActionKind.openA, row := p.1, col := p.2 } : Move)
            ∈ subset_reasoning (build_constraints b)) ∧
       (B.remaining - A.remaining
          = ((B.unknown.dedup.filter (fun x => !(decide (x ∈ A.unknown.dedup)))).length : Int) →
        ∀ p ∈ B.unknown.dedup.filter (fun x => !(decide (x ∈ A.unknown.dedup))),
          ({ action := ActionKind.flagA, row := p.1, col := p.2 } : Move)
            ∈ subset_reasoning (build_constraints b)))) := by
  refine ⟨fun hne => ?_, fun hnil => ?_, ?_⟩
  · rw [csp_next_moves, if_neg hne]
  · rw [csp_next_moves, if_pos hnil]
  · intro A B hA hB hA0 hA1 hB0 hB1 hsub hdne hd0 hdlen
    have hAmem := mem_processed hA (build_constraints_unknown_ne_nil hA) hA0 hA1
    have hBmem := mem_processed hB (build_constraints_unknown_ne_nil hB) hB0 hB1
    have hABne : (A, A.unknown.dedup, A.remaining) ≠ (B, B.unknown.dedup, B.remaining) := by
      intro he
      have h1 := congrArg (fun e => e.2.1) he
      simp only at h1
      obtain ⟨x, hx⟩ := List.exists_mem_of_ne_nil _ hdne
      rw [List.mem_filter] at hx
      have hxB : x ∈ B.unknown.dedup := hx.1
      have hxA : x ∉ A.unknown.dedup := by simpa using hx.2
      rw [h1] at hxA
      exact hxA hxB
    obtain ⟨i, hilt, hie⟩ := List.getElem_of_mem hAmem
    obtain ⟨j, hjlt, hje⟩ := List.getElem_of_mem hBmem
    have hij : i ≠ j := by
      intro he
      subst he
      exact hABne (hie.symm.trans hje)
    have hiD : (processed_constraints (build_constraints b)).getD i default
        = (A, A.unknown.dedup, A.remaining) := by
      rw [List.getD_eq_getElem _ _ hilt, hie]
    have hjD : (processed_constraints (build_constraints b)).getD j default
        = (B, B.unknown.dedup, B.remaining) := by
      rw [List.getD_eq_getElem _ _ hjlt, hje]
    have hpair : (i, j) ∈ (List.range (processed_constraints (build_constraints b)).length).flatMap
        (fun i => (List.range (processed_constraints (build_constraints b)).length).filterMap
          (fun j => if i = j then none else some (i, j))) := by
      rw [List.mem_flatMap]
      refine ⟨i, List.mem_range.mpr hilt, ?_⟩
      rw [List.mem_filterMap]
      exact ⟨j, List.mem_range.mpr hjlt, by rw [if_neg hij]⟩
    constructor
    · intro hz p hp
      rw [subset_reasoning]
      apply List.mem_append.mpr
      left
      apply List.mem_map.mpr
      refine ⟨p, ?_, rfl⟩
      rw [mem_sort_dedup, List.mem_flatMap]
      refine ⟨(i, j), hpair, ?_⟩
      rw [hiD, hjD]
      exact mem_pair_contrib_open hsub hdne hz hp
    · intro hz p hp
      rw [subset_reasoning]
      apply List.mem_append.mpr
      right
      apply List.mem_map.mpr
      refine ⟨p, ?_, rfl⟩
      rw [mem_sort_dedup, List.mem_flatMap]
      refine ⟨(i, j), hpair, ?_⟩
      rw [hiD, hjD]
      exact mem_pair_contrib_flag hsub hdne hz hp

theorem C4_subset_elimination_witness :
    basic_logical_moves bC4wit = [] ∧
    ({ row := 0, col := 0, clue := 1, unknown := [(1, 0), (1, 1)], flagged := 0 }
      : Constraint) ∈ build_constraints bC4wit ∧
    ({ row := 0, col := 1, clue := 1, unknown := [(1, 0), (1, 1), (1, 2)], flagged := 0 }
      : Constraint) ∈ build_constraints bC4wit ∧
    csp_next_moves bC4wit = subset_reasoning (build_constraints bC4wit) ∧
    ({ action := ActionKind.openA, row := 1, col := 2 } : Move)
      ∈ subset_reasoning (build_constraints bC4wit) := by
  refine ⟨by decide, by decide, by decide,
    (C4_subset_elimination bC4wit).2.1 (by decide), ?_⟩
  exact ((C4_subset_elimination bC4wit).2.2
    { row := 0, col := 0, clue := 1, unknown := [(1, 0), (1, 1)], flagged := 0 }
    { row := 0, col := 1, clue := 1, unknown := [(1, 0), (1, 1), (1, 2)], flagged := 0 }
    (by decide) (by decide) (by decide) (by decide) (by decide) (by decide)
    (by decide) (by decide) (by decide) (by decide)).1 (by decide) (1, 2) (by decide)

/-! ## Claim C5: exact enumeration of component probabilities -/

theorem countP_subsets_powerset (l : List (Nat × Nat)) (hnd : l.Nodup)
    (P : Finset (Nat × Nat) → Prop) [DecidablePred P] :
    (subsets_list l).countP (fun S => decide (P S.toFinset))
      = (l.toFinset.powerset.filter P).card := by
  induction l generalizing P with
  | nil =>
    show [([] : List (Nat × Nat))].countP _ = _
    rw [List.countP_cons]
    simp only [List.countP_nil, List.toFinset_nil, Nat.zero_add]
    by_cases hP : P ∅
    · rw [if_pos (by simpa using hP)]
      rw [show (∅ : Finset (Nat × Nat)).powerset = {∅} from rfl]
      rw [Finset.filter_singleton, if_pos hP, Finset.card_singleton]
    · rw [if_neg (by simpa using hP)]
      rw [show (∅ : Finset (Nat × Nat)).powerset = {∅} from rfl]
      rw [Finset.filter_singleton, if_neg hP, Finset.card_empty]
  | cons a t ih =>
    have hnd' := List.nodup_cons.mp hnd
    have hanot : a ∉ t.toFinset := by
      rw [List.mem_toFinset]
      exact hnd'.1
    show ((subsets_list t) ++ (subsets_list t).map (fun s => a :: s)).countP _ = _
    rw [List.countP_append, List.countP_map]
    have hmapped : ((subsets_list t).countP
          ((fun S : List (Nat × Nat) => decide (P S.toFinset)) ∘ (fun s => a :: s)))
        = (subsets_list t).countP (fun S => decide (P (insert a S.toFinset))) := by
      refine countP_congr_bool (fun S _ => ?_)
      simp [List.toFinset_cons]
    rw [hmapped, ih hnd'.2 P, ih hnd'.2 (fun u => P (insert a u)),
      List.toFinset_cons, Finset.powerset_insert, Finset.filter_union,
      Finset.card_union_of_disjoint, Finset.filter_image, Finset.card_image_of_injOn]
    · intro u hu v hv he
      rw [Finset.coe_filter, Set.mem_setOf_eq] at hu hv
      have hu2 := Finset.mem_powerset.mp hu.1
      have hv2 := Finset.mem_powerset.mp hv.1
      have hau : a ∉ u := fun hx => hanot (hu2 hx)
      have hav : a ∉ v := fun hx => hanot (hv2 hx)
      ext x
      constructor
      · intro hx
        have hxv : x ∈ insert a v := by
          rw [← he]
          exact Finset.mem_insert_of_mem hx
        rcases Finset.mem_insert.mp hxv with hxa | hxv'
        · exact absurd (hxa ▸ hx) hau
        · exact hxv'
      · intro hx
        have hxu : x ∈ insert a u := by
          rw [he]
          exact Finset.mem_insert_of_mem hx
        rcases Finset.mem_insert.mp hxu with hxa | hxu'
        · exact absurd (hxa ▸ hx) hav
        · exact hxu'
    · rw [Finset.disjoint_left]
      intro u hu1 hu2
      rw [Finset.mem_filter] at hu1
      rw [Finset.filter_image, Finset.mem_image] at hu2
      obtain ⟨v, hv, hve⟩ := hu2
      have hu3 := Finset.mem_powerset.mp hu1.1
      have hain : a ∈ u := by
        rw [← hve]
        exact Finset.mem_insert_self a v
      exact hanot (hu3 hain)

theorem all_satisfies_eq (component : List Constraint) (S : List (Nat × Nat)) :
    (component.all (subset_satisfies S))
      = decide (SatAssign component S.toFinset) := by
  rw [Bool.eq_iff_iff, List.all_eq_true, decide_eq_true_eq]
  constructor
  · intro h c hc
    have hcs := h c hc
    rw [subset_satisfies, decide_eq_true_eq] at hcs
    rw [← hcs]
    congr 1
    refine countP_congr_bool (fun u _ => ?_)
    rw [Bool.eq_iff_iff]
    simp [List.mem_toFinset]
  · intro h c hc
    rw [subset_satisfies, decide_eq_true_eq]
    have hcs := h c hc
    rw [← hcs]
    congr 1
    refine countP_congr_bool (fun u _ => ?_)
    rw [Bool.eq_iff_iff]
    simp [List.mem_toFinset]

theorem component_unknowns_nodup (component : List Constraint) :
    (component_unknowns component).Nodup :=
  nodup_sort_dedup _

theorem total_assignments_eq (component : List Constraint) :
    (satisfying_subsets component).length = total_assignments component := by
  rw [satisfying_subsets, ← List.countP_eq_length_filter, total_assignments]
  have hrw : (subsets_list (component_unknowns component)).countP
        (fun S => component.all (subset_satisfies S))
      = (subsets_list (component_unknowns component)).countP
        (fun S => decide (SatAssign component S.toFinset)) :=
    countP_congr_bool (fun S _ => all_satisfies_eq component S)
  rw [hrw, countP_subsets_powerset (component_unknowns component)
    (component_unknowns_nodup component) (SatAssign component)]

theorem mine_assignments_eq (component : List Constraint) (u : Nat × Nat) :
    (satisfying_subsets component).countP (fun S => decide (u ∈ S))
      = mine_assignments component u := by
  rw [satisfying_subsets, List.countP_filter, mine_assignments]
  have hrw : (subsets_list (component_unknowns component)).countP
        (fun S => decide (u ∈ S) && component.all (subset_satisfies S))
      = (subsets_list (component_unknowns component)).countP
        (fun S => decide (SatAssign component S.toFinset ∧ u ∈ S.toFinset)) := by
    refine countP_congr_bool (fun S _ => ?_)
    rw [all_satisfies_eq, Bool.eq_iff_iff]
    simp only [Bool.and_eq_true, decide_eq_true_eq, List.mem_toFinset]
    exact ⟨fun hx => ⟨hx.2, hx.1⟩, fun hx => ⟨hx.2, hx.1⟩⟩
  rw [hrw, countP_subsets_powerset (component_unknowns component)
    (component_unknowns_nodup component) (fun A => SatAssign component A ∧ u ∈ A)]

/-- C5: for a component with at most 15 distinct unknowns, every computed
probability is exactly (number of satisfying assignments in which the cell
is a mine) / (total satisfying assignments) — counted over the powerset of
the component's unknowns — and lies in [0, 1]; components above the cutoff
are left unresolved (`none`). -/
theorem C5_exact_enumeration (component : List Constraint) :
    ((component_unknowns component).length ≤ MAX_ENUM_UNKNOWNS →
      ∀ probs, exact_component_probs component = some probs →
        ∀ up ∈ probs,
          up.2 = (mine_assignments component up.1 : ℚ) / (total_assignments component : ℚ) ∧
          0 ≤ up.2 ∧ up.2 ≤ 1) ∧
    ((component_unknowns component).length > MAX_ENUM_UNKNOWNS →
      exact_component_probs component = none) := by
  constructor
  · intro h15 probs hsome up hup
    rw [exact_component_probs, if_neg (by omega)] at hsome
    by_cases h0 : (satisfying_subsets component).length = 0
    · rw [if_pos h0] at hsome
      cases hsome
    · rw [if_neg h0] at hsome
      have hprobs := Option.some.inj hsome
      rw [← hprobs] at hup
      rw [List.mem_map] at hup
      obtain ⟨u, hu, hue⟩ := hup
      have h2 : up.2 = ((satisfying_subsets component).countP
            (fun S => decide (u ∈ S)) : ℚ)
          / ((satisfying_subsets component).length : ℚ) := by
        rw [← hue]
      have h1 : up.1 = u := by
        rw [← hue]
      have hcle : (satisfying_subsets component).countP (fun S => decide (u ∈ S))
          ≤ (satisfying_subsets component).length := List.countP_le_length _
      have htpos : (0 : ℚ) < ((satisfying_subsets component).length : ℚ) := by
        have hp : 0 < (satisfying_subsets component).length := Nat.pos_of_ne_zero h0
        exact_mod_cast hp
      refine ⟨?_, ?_, ?_⟩
      · rw [h2, h1, mine_assignments_eq, total_assignments_eq]
      · rw [h2]
        exact div_nonneg (by positivity) (by positivity)
      · rw [h2]
        rw [div_le_one htpos]
        exact_mod_cast hcle
  · intro h15
    rw [exact_component_probs, if_pos h15]

theorem exact_probs_wit_eq :
    exact_component_probs
        [({ row := 0, col := 0, clue := 1, unknown := [(1, 1)], flagged := 0 } : Constraint)]
      = some [((1, 1), (1 : ℚ))] := by
  have hu : component_unknowns
      [({ row := 0, col := 0, clue := 1, unknown := [(1, 1)], flagged := 0 } : Constraint)]
      = [(1, 1)] := by decide
  have hs : satisfying_subsets
      [({ row := 0, col := 0, clue := 1, unknown := [(1, 1)], flagged := 0 } : Constraint)]
      = [[(1, 1)]] := by decide
  simp only [exact_component_probs, MAX_ENUM_UNKNOWNS, hu, hs]
  norm_num

theorem C5_exact_enumeration_witness :
    (component_unknowns
        [({ row := 0, col := 0, clue := 1, unknown := [(1, 1)], flagged := 0 } : Constraint)]).length
      ≤ MAX_ENUM_UNKNOWNS ∧
    exact_component_probs
        [({ row := 0, col := 0, clue := 1, unknown := [(1, 1)], flagged := 0 } : Constraint)]
      = some [((1, 1), (1 : ℚ))] ∧
    (∀ up ∈ [(((1 : Nat), (1 : Nat)), (1 : ℚ))],
      up.2 = (mine_assignments
          [({ row := 0, col := 0, clue := 1, unknown := [(1, 1)], flagged := 0 } : Constraint)]
          up.1 : ℚ)
        / (total_assignments
          [({ row := 0, col := 0, clue := 1, unknown := [(1, 1)], flagged := 0 } : Constraint)] : ℚ) ∧
      0 ≤ up.2 ∧ up.2 ≤ 1) :=
  ⟨by decide, exact_probs_wit_eq,
    (C5_exact_enumeration
        [({ row := 0, col := 0, clue := 1, unknown := [(1, 1)], flagged := 0 } : Constraint)]).1
      (by decide) [((1, 1), (1 : ℚ))] exact_probs_wit_eq⟩

end Minesweeper
